import Mathlib

/-!
# Mython: a verification development

Shallow embedding of the Mython interpreter (`lexer.cpp`, `runtime.cpp`,
`statement.cpp`) and theorems about it.

Conventions of the embedding.

* A byte of source text is a `Char`; `<cctype>` predicates are those of the
  "C" locale (every byte above 0x7E is in no class).
* `std::istringstream` is the record `IStream`: the characters already read
  (most recent first, so that `unget` can step back), the characters still to
  read, `eofbit`, and one flag standing for `failbit`/`badbit` (the lexer never
  clears nor tells them apart).
* A `while` loop whose termination depends on the input takes a fuel argument
  and reports `Fault.out_of_fuel` when the budget is exhausted.
* Undefined behaviour and C++ exceptions leaving the lexer are faults.
* `Statement::Execute` is `ast.Exec fuel`: the budget bounds the depth of
  nested calls of `Execute`.  A call leaves an `Outcome`: the holder returned
  or the way the call ended (`Abrupt`: a thrown `ObjectHolder`, a
  `std::runtime_error`, ...), and the closure and the context, which the call
  may have modified before it ended.
* A `ClassInstance` is mutable and shared: holders carry its address, and the
  instances live in `Context.heap`.  The value of a `runtime::Number` is a
  signed 64-bit integer (`Number.min`, `Number.max`); an arithmetic operator
  whose result the type cannot hold is undefined behaviour.
-/

set_option linter.dupNamespace false

namespace Mython

/-! ## Lexer: tokens -/

namespace parse

/-- The token variants of `lexer.h` (`token_type::*`). -/
inductive Token where
  | Number (value : Int)
  | Id (value : String)
  | String (value : String)
  | Char (value : Char)
  | Class | Return | If | Else | Def | Newline | Print | Indent | Dedent
  | And | Or | Not | Eq | NotEq | LessOrEq | GreaterOrEq | None | True | False | Eof
  deriving DecidableEq, Repr

/-- Ways in which the lexer can fail to produce a token vector. -/
inductive Fault where
  /-- undefined behaviour: read outside a `string_view`, or of an
  uninitialised `int` -/
  | undefined
  /-- `std::out_of_range` thrown by `std::string::substr` -/
  | out_of_range
  /-- the loop budget of the model was exhausted -/
  | out_of_fuel
  deriving DecidableEq, Repr

/-! ## `<cctype>` in the "C" locale -/

def isdigit (c : Char) : Bool := 48 ≤ c.toNat && c.toNat ≤ 57

def isspace (c : Char) : Bool := c.toNat == 32 || (9 ≤ c.toNat && c.toNat ≤ 13)

def isprint (c : Char) : Bool := 32 ≤ c.toNat && c.toNat ≤ 126

def ispunct (c : Char) : Bool :=
  (33 ≤ c.toNat && c.toNat ≤ 47) || (58 ≤ c.toNat && c.toNat ≤ 64) ||
  (91 ≤ c.toNat && c.toNat ≤ 96) || (123 ≤ c.toNat && c.toNat ≤ 126)

/-! ## `std::istringstream` -/

/-- State of a `std::istringstream`. -/
structure IStream where
  /-- characters already extracted, most recent first -/
  before : List Char
  /-- characters not yet extracted -/
  after : List Char
  /-- `eofbit` -/
  eof : Bool
  /-- `failbit` or `badbit` -/
  fail : Bool
  deriving DecidableEq, Repr

/-- `std::istringstream istring(line)`. -/
def IStream.ofLine (line : List Char) : IStream :=
  { before := [], after := line, eof := false, fail := false }

/-- `good()`: no state bit is set. -/
def IStream.good (s : IStream) : Bool := !s.eof && !s.fail

/-- `istream::get(char&)` and `istream::get()`: the extracted character, if
any, and the new stream state.  The sentry fails (setting `failbit`) on a
stream that is not `good()`; at the end of the buffer `eofbit` and `failbit`
are set.  `while (is.get(c))` runs while a character is returned. -/
def IStream.get (s : IStream) : Option Char × IStream :=
  if s.good then
    match s.after with
    | [] => (none, { s with eof := true, fail := true })
    | c :: rest => (some c, { s with before := c :: s.before, after := rest })
  else (none, { s with fail := true })

/-- `istream::peek()`: the next character without extracting it; `none` is
`traits::eof()`.  At the end of the buffer `eofbit` is set. -/
def IStream.peek (s : IStream) : Option Char × IStream :=
  if s.good then
    match s.after with
    | [] => (none, { s with eof := true })
    | c :: _ => (some c, s)
  else (none, { s with fail := true })

/-- `istream::unget()` (C++11): clears `eofbit`, then steps back one
character; `badbit` when there is nothing to step back over. -/
def IStream.unget (s : IStream) : IStream :=
  if s.fail then { s with eof := false }
  else
    match s.before with
    | [] => { s with eof := false, fail := true }
    | c :: b => { before := b, after := c :: s.after, eof := false, fail := false }

/-- The largest `int`: `int` is 32 bits wide on the platforms the
interpreter is built for. -/
def INT_MAX : Int := 2147483647

/-- The smallest `int`. -/
def INT_MIN : Int := -2147483648

/-- Value of a run of decimal digits, most significant first. -/
def decimalValue (ds : List Char) : Nat :=
  ds.foldl (fun acc c => 10 * acc + (c.toNat - 48)) 0

/-- `in >> d` for `int d` (`std::num_get`, decimal, "C" locale): the value
stored in `d` (`none` when nothing is stored) and the new stream state.
The sentry skips white space; an optional sign and the maximal run of digits
are extracted; a value out of the range of `int` stores the nearest bound and
sets `failbit`; no digit stores 0 and sets `failbit`; reaching the end of the
buffer sets `eofbit`. -/
def IStream.extractInt (s : IStream) : Option Int × IStream :=
  if s.good then
    let ws := s.after.takeWhile isspace
    match s.after.dropWhile isspace with
    | [] => (none, { before := ws.reverse ++ s.before, after := [], eof := true, fail := true })
    | c :: r =>
      let neg := c == '-'
      let signed := c == '-' || c == '+'
      let body := if signed then r else c :: r
      let sign := if signed then [c] else []
      let ds := body.takeWhile isdigit
      let rest := body.dropWhile isdigit
      let consumed := ds.reverse ++ sign ++ ws.reverse ++ s.before
      let v : Int := if neg then -(decimalValue ds : Int) else (decimalValue ds : Int)
      let clamped : Int := if v > INT_MAX then INT_MAX else if v < INT_MIN then INT_MIN else v
      (some (if ds.isEmpty then 0 else clamped),
       { before := consumed, after := rest, eof := rest.isEmpty,
         fail := ds.isEmpty || v > INT_MAX || v < INT_MIN })
  else (none, { s with fail := true })

/-! ## The lexer -/

/-- The data members of `Lexer` that the constructor writes. -/
structure Lexer where
  tokens_ : List Token
  number_spaces : Nat
  deriving DecidableEq, Repr

/-- Modelled from the spec: the initial values of the data members, declared
in `lexer.h`, which is not among the sources ("Let `prev` be the previous
emitted indent level (initially 0)"). -/
def Lexer.init : Lexer := { tokens_ := [], number_spaces := 0 }

/-- `tokens_.push_back(t)`. -/
def Lexer.push_back (l : Lexer) (t : Token) : Lexer :=
  { l with tokens_ := l.tokens_ ++ [t] }

/-- `std::string_view::find_first_not_of(' ')`; `none` is `npos`. -/
def find_first_not_of_space : List Char → Option Nat
  | [] => none
  | c :: rest =>
    if c = ' ' then (find_first_not_of_space rest).map (· + 1) else some 0

/-- `Lexer::IsEmptyLine`.  On a non-empty line made of spaces only `p` is
`npos` and `line[p]` reads outside the view: undefined behaviour. -/
def IsEmptyLine (line : List Char) : Except Fault Bool :=
  if line.length = 0 then .ok true
  else
    match find_first_not_of_space line with
    | none => .error Fault.undefined
    | some p =>
      if line.get? p = some '#' || (decide (p > 0) && p == line.length - 1) then .ok true
      else .ok false

/-- `Lexer::TrimLine`: the returned level and the new content of `in`.
With `result == npos` the halved value still exceeds every string size and
`substr` throws. -/
def TrimLine (line : List Char) : Except Fault (Nat × List Char) :=
  match find_first_not_of_space line with
  | none => .error Fault.out_of_range
  | some result =>
    let result := if result ≥ 2 then result / 2 else result
    .ok (result, line.drop result)

/-- The loop `for (i = number_spaces; i < new_level; ++i) push_back(Indent)`;
`n` bounds the number of iterations. -/
def SetIndent.indentLoop : Nat → Nat → Nat → Lexer → Lexer
  | 0, _, _, l => l
  | n + 1, i, new_level, l =>
    if i < new_level then SetIndent.indentLoop n (i + 1) new_level (l.push_back Token.Indent)
    else l

/-- The loop `for (i = number_spaces; i > new_level; --i) push_back(Dedent)`;
`n` bounds the number of iterations. -/
def SetIndent.dedentLoop : Nat → Nat → Nat → Lexer → Lexer
  | 0, _, _, l => l
  | n + 1, i, new_level, l =>
    if i > new_level then SetIndent.dedentLoop n (i - 1) new_level (l.push_back Token.Dedent)
    else l

/-- `Lexer::SetIndent`. -/
def SetIndent (l : Lexer) (new_level : Nat) : Lexer :=
  let l1 := SetIndent.indentLoop new_level l.number_spaces new_level l
  let l2 := SetIndent.dedentLoop l.number_spaces l.number_spaces new_level l1
  if l2.number_spaces ≠ new_level then { l2 with number_spaces := new_level } else l2

/-- `Lexer::ReadNumber`.  `d` is uninitialised when the extraction stores
nothing. -/
def ReadNumber (is : IStream) (l : Lexer) : Except Fault (IStream × Lexer) :=
  let is := is.unget
  match is.extractInt with
  | (none, _) => .error Fault.undefined
  | (some d, is) => .ok (is, l.push_back (Token.Number d))

/-- The loop of `Lexer::ReadString`; `n` bounds the number of iterations. -/
def ReadString.loop : Nat → IStream → Char → String → IStream × String
  | 0, is, _, str => (is, str)
  | n + 1, is, d, str =>
    match is.get with
    | (none, is) => (is, str)
    | (some ch, is) =>
      if ch = d then (is, str)
      else if ch = '\\' then
        match is.get with
        | (got, is) =>
          -- a failed `get` leaves `ch` as it was: the backslash
          let ch := got.getD ch
          let ch := if ch = 'n' then '\n' else if ch = 't' then '\t' else ch
          ReadString.loop n is d (str.push ch)
      else ReadString.loop n is d (str.push ch)

/-- `Lexer::ReadString`. -/
def ReadString (is : IStream) (d : Char) (l : Lexer) : IStream × Lexer :=
  let (is, str) := ReadString.loop (is.after.length + 1) is d ""
  (is, l.push_back (Token.String str))

/-- The loop of `Lexer::ReadId`; `n` bounds the number of iterations. -/
def ReadId.loop : Nat → IStream → String → IStream × String
  | 0, is, s => (is, s)
  | n + 1, is, s =>
    match is.get with
    | (none, is) => (is, s)
    | (some c, is) =>
      if (isspace c || c == ' ') || (ispunct c && c != '_') then
        if ispunct c && c != '_' then (is.unget, s) else (is, s)
      else ReadId.loop n is (s.push c)

/-- The keyword table of `Lexer::ReadId`. -/
def ReadId.token (s : String) : Token :=
  if s = "class" then Token.Class
  else if s = "return" then Token.Return
  else if s = "if" then Token.If
  else if s = "else" then Token.Else
  else if s = "def" then Token.Def
  else if s = "print" then Token.Print
  else if s = "or" then Token.Or
  else if s = "None" then Token.None
  else if s = "and" then Token.And
  else if s = "not" then Token.Not
  else if s = "True" then Token.True
  else if s = "False" then Token.False
  else Token.Id s

/-- `Lexer::ReadId`. -/
def ReadId (is : IStream) (l : Lexer) : IStream × Lexer :=
  let (is, s) := ReadId.loop (is.after.length + 1) is ""
  (is, l.push_back (ReadId.token s))

/-- `Lexer::ReadSign`. -/
def ReadSign (is : IStream) (ch : Char) (l : Lexer) : IStream × Lexer :=
  if ch = '=' ∨ ch = '!' ∨ ch = '<' ∨ ch = '>' then
    match is.peek with
    | (pk, is) =>
      if pk = some '=' then
        let l := if ch = '=' then l.push_back Token.Eq
          else if ch = '!' then l.push_back Token.NotEq
          else if ch = '<' then l.push_back Token.LessOrEq
          else l.push_back Token.GreaterOrEq
        (is.get.2, l)
      else (is, l.push_back (Token.Char ch))
  else if ch ∈ ['*', '/', '+', '-', '(', ')', '?', ',', '.', ':', ';', '\t', '\n'] then
    (is, l.push_back (Token.Char ch))
  else if ch = '\'' ∨ ch = '"' then ReadString is ch l
  else ReadId is.unget l

/-- `Lexer::ReadLine`: the loop `while (istring.get(ch))` with the flag
`isNewLine`; the first argument bounds the number of iterations. -/
def ReadLine.loop : Nat → IStream → Bool → Lexer → Except Fault Lexer
  | 0, _, _, _ => .error Fault.out_of_fuel
  | n + 1, is, isNewLine, l =>
    match is.get with
    | (none, _) => .ok (if isNewLine then l.push_back Token.Newline else l)
    | (some ch, is) =>
      if ch = ' ' then ReadLine.loop n is isNewLine l
      else if ch = '#' then .ok (l.push_back Token.Newline)
      else if isdigit ch then
        match ReadNumber is l with
        | .error e => .error e
        | .ok (is, l) => ReadLine.loop n is true l
      else if isprint ch || isspace ch then
        match ReadSign is ch l with
        | (is, l) => ReadLine.loop n is true l
      else ReadLine.loop n is true l

/-- `Lexer::ReadLine`. -/
def ReadLine (fuel : Nat) (is : IStream) (l : Lexer) : Except Fault Lexer :=
  ReadLine.loop fuel is false l

/-- The strings that successive calls of `getline(in, inp_line)` store before
the first call that fails: the text between line feeds; a call that extracts
nothing at the end of the input fails. -/
def getlines.go : List Char → List Char → List (List Char)
  | [], [] => []
  | [], cur => [cur.reverse]
  | c :: rest, cur =>
    if c = '\n' then cur.reverse :: getlines.go rest [] else getlines.go rest (c :: cur)

/-- The lines read by the constructor's `while (getline(in, inp_line))`. -/
def getlines (input : List Char) : List (List Char) := getlines.go input []

/-- One iteration of the constructor's loop over the input lines. -/
def Lexer.line (fuel : Nat) (l : Lexer) (inp_line : List Char) : Except Fault Lexer :=
  match IsEmptyLine inp_line with
  | .error e => .error e
  | .ok true => .ok l
  | .ok false =>
    match TrimLine inp_line with
    | .error e => .error e
    | .ok (level, trimmed) => ReadLine fuel (IStream.ofLine trimmed) (SetIndent l level)

/-- The constructor's loop over the input lines. -/
def Lexer.lines (fuel : Nat) : Lexer → List (List Char) → Except Fault Lexer
  | l, [] => .ok l
  | l, inp_line :: rest =>
    match Lexer.line fuel l inp_line with
    | .error e => .error e
    | .ok l => Lexer.lines fuel l rest

/-- `Lexer::Lexer(std::istream& in)`: the token vector built from the input;
`fuel` bounds the iterations of `ReadLine` on each line. -/
def Lexer.Lexer (fuel : Nat) (input : List Char) : Except Fault (List Token) :=
  match Lexer.lines fuel Lexer.init (getlines input) with
  | .error e => .error e
  | .ok l => .ok ((SetIndent l 0).push_back Token.Eof).tokens_

/-! ## Vocabulary of the lexer's properties -/

/-- The four layout tokens; every other token is pushed by `ReadNumber`,
`ReadSign`, `ReadString` or `ReadId`. -/
def Token.isLayout : Token → Bool
  | .Newline | .Indent | .Dedent | .Eof => true
  | _ => false

/-- The invariant of the constructor's loop: the indentation levels opened and
not yet closed are those counted by `number_spaces`, and no `Eof` has been
pushed. -/
def Lexer.balanced (l : parse.Lexer) : Prop :=
  l.tokens_.count Token.Indent = l.tokens_.count Token.Dedent + l.number_spaces ∧
  Token.Eof ∉ l.tokens_

/-- The byte an escape sequence stands for, in the words of the
specification: "`\n` → newline, `\t` → tab, any other backslash-escaped byte
yields that byte verbatim". -/
def escapedByte (c : Char) : Char :=
  if c = 'n' then '\n' else if c = 't' then '\t' else c

/-- The value of the body of a string literal, in the words of the
specification: a backslash and the byte after it stand for `escapedByte`,
every other byte for itself. -/
def literalValue : List Char → List Char
  | [] => []
  | c :: rest =>
    if c = '\\' then
      match rest with
      | [] => [c]
      | e :: rest' => escapedByte e :: literalValue rest'
    else c :: literalValue rest

/-- The text between the quotes of a literal opened by `d` and "closed by the
next unescaped `d`": it holds no `d` outside an escape sequence and does not
end inside one. -/
def closedBody (d : Char) : List Char → Bool
  | [] => true
  | c :: rest =>
    if c = d then false
    else if c = '\\' then
      match rest with
      | [] => false
      | _ :: rest' => closedBody d rest'
    else closedBody d rest

/-- The value of a decimal digit. -/
def digitValue (c : Char) : Nat := c.toNat - 48

/-- The bytes that `ReadId` appends to the identifier: those on which its loop
does not stop. -/
def isIdByte (c : Char) : Bool := !((isspace c || c == ' ') || (ispunct c && c != '_'))

/-- The punctuation bytes for which neither `ReadLine` nor `ReadSign` has a
case and which `ReadId` puts back: `$ % & @ [ \ ] ^`, the grave accent,
the braces, the bar and the tilde. -/
def isStray (c : Char) : Bool :=
  ispunct c && !(['_', '#', '=', '!', '<', '>', '*', '/', '+', '-', '(', ')', '?', ',', '.',
    ':', ';', '\'', '"'].contains c)

/-- A letter or an underscore: the bytes with which an identifier or keyword
starts. -/
def isIdStart (c : Char) : Bool :=
  (65 ≤ c.toNat && c.toNat ≤ 90) || (97 ≤ c.toNat && c.toNat ≤ 122) || c == '_'

end parse

/-! ## Object model (`runtime.cpp`) and syntax tree (`statement.cpp`) -/

namespace runtime

/-- The comparison functions of `runtime.cpp` that a `Comparison` node can
hold in `cmp_`. -/
inductive Comparator where
  | Equal | NotEqual | Less | Greater | LessOrEqual | GreaterOrEqual
  deriving DecidableEq, Repr

mutual
/-- The node classes of `statement.cpp` (`ast::Statement` and its
subclasses).  A `std::unique_ptr` that the code tests for null is an
`Option`. -/
inductive Statement where
  | Assignment (var_ : String) (rv_ : Statement)
  | VariableValue (dotted_ids_ : List String)
  | Print (args_ : List Statement)
  | MethodCall (object_ : Statement) (method_ : String) (args_ : List Statement)
  | Stringify (arg : Statement)
  | Add (lhs rhs : Option Statement)
  | Sub (lhs rhs : Option Statement)
  | Mult (lhs rhs : Option Statement)
  | Div (lhs rhs : Option Statement)
  | Compound (statements_ : List Statement)
  | Return (statement_ : Statement)
  | ClassDefinition (cls_ : Option Object)
  | FieldAssignment (object_ : List String) (field_name_ : String) (rv_ : Statement)
  | IfElse (condition_ if_body_ : Statement) (else_body_ : Option Statement)
  | Or (lhs rhs : Statement)
  | And (lhs rhs : Statement)
  | Not (arg : Statement)
  | Comparison (cmp_ : Comparator) (lhs rhs : Statement)
  | NewInstance (class__ : Class) (args_ : List Statement)
  | MethodBody (body_ : Statement)
  /-- Modelled from the spec: the literal nodes `ValueStatement<T>`
  (`NumericConst`, `StringConst`, `BoolConst`) are defined in `statement.h`,
  which is not among the sources; executing one yields the object it holds
  ("Objects are heap-allocated on creation (literals, ...)"). -/
  | ValueStatement (value_ : Object)
/-- The objects an `ObjectHolder` can point to.  A `ClassInstance` is mutable
and shared, so the holder carries its address in the free store. -/
inductive Object where
  | Number (value : Int)
  | String (value : String)
  | Bool (value : Bool)
  | Class (cls : Class)
  | ClassInstance (addr : Nat)
/-- The data members `name_`, `methods_`, `parent_` of `runtime::Class`; the
fourth member, `name_to_method_`, is computed from them by the constructor
(see `Class.name_to_method_`). -/
inductive Class where
  | mk (name_ : String) (methods_ : List Method) (parent_ : Option Class)
/-- The record `runtime::Method`. -/
inductive Method where
  | mk (name : String) (formal_params : List String) (body : Statement)
end

/-- A null holder is `none`. -/
abbrev ObjectHolder := Option Object

def Method.name : Method → String
  | .mk name _ _ => name

def Method.formal_params : Method → List String
  | .mk _ formal_params _ => formal_params

def Method.body : Method → Statement
  | .mk _ _ body => body

def Class.name_ : Class → String
  | .mk name_ _ _ => name_

def Class.methods_ : Class → List Method
  | .mk _ methods_ _ => methods_

def Class.parent_ : Class → Option Class
  | .mk _ _ parent_ => parent_

/-- A `std::unordered_map<std::string, T>`; the code never iterates over one,
so the order of the entries is not observable. -/
abbrev Map (β : Type) := List (String × β)

/-- `m.find(key)` / `m.count(key)` / `m.at(key)`: the mapped value, if any. -/
def Map.find {β : Type} (m : Map β) (key : String) : Option β :=
  match m with
  | [] => none
  | (k, v) :: rest => if k = key then some v else Map.find rest key

/-- `m[key] = value`. -/
def Map.assign {β : Type} (m : Map β) (key : String) (value : β) : Map β :=
  match m with
  | [] => [(key, value)]
  | (k, v) :: rest => if k = key then (k, value) :: rest else (k, v) :: Map.assign rest key value

/-- `Closure`: a symbol table. -/
abbrev Closure := Map ObjectHolder

/-- The loop `for (const auto& method : methods) name_to_method_[method.name] = &method`. -/
def Class.insertMethods (table : Map Method) (methods : List Method) : Map Method :=
  methods.foldl (fun table method => Map.assign table method.name method) table

/-- The member `name_to_method_` as `Class::Class` leaves it: the methods of
the parent's `methods_`, then the own `methods_`.  A pointer to a `Method` is
the `Method` it points to. -/
def Class.name_to_method_ (c : Class) : Map Method :=
  let table : Map Method :=
    match c.parent_ with
    | some parent => Class.insertMethods [] parent.methods_
    | none => []
  Class.insertMethods table c.methods_

/-- `Class::GetMethod`; `none` is `nullptr`. -/
def Class.GetMethod (c : Class) (name : String) : Option Method :=
  Map.find c.name_to_method_ name

/-- `Class::GetName`. -/
def Class.GetName (c : Class) : String := c.name_

/-- `IsTrue`. -/
def IsTrue (object : ObjectHolder) : Bool :=
  match object with
  | some (.Number value) => value != 0
  | some (.String value) => !(value.data.isEmpty)
  | some (.Bool value) => value == true
  | _ => false

/-- The data members of `ClassInstance`. -/
structure ClassInstance where
  cls_ : Class
  fields_ : Closure

/-- `ClassInstance::HasMethod`. -/
def ClassInstance.HasMethod (self : ClassInstance) (method : String) (argument_count : Nat) :
    Bool :=
  match self.cls_.GetMethod method with
  | some ptrMethod => ptrMethod.formal_params.length == argument_count
  | none => false

/-- The execution context: the output stream of `Context`, together with the
class instances allocated so far, indexed by address.  Instances are never
freed in the embedding; the lifetime of C++ objects is not modelled. -/
structure Context where
  output : String
  heap : List ClassInstance

/-- Ways in which a call can end other than by returning. -/
inductive Abrupt where
  /-- `throw` of an `ObjectHolder` by a `Return` node -/
  | thrown (obj : ObjectHolder)
  /-- `throw std::runtime_error(what)` -/
  | runtime_error (what : String)
  /-- `std::out_of_range` thrown by `unordered_map::at` -/
  | out_of_range
  /-- undefined behaviour: a null or dangling pointer is dereferenced -/
  | undefined
  /-- the budget of the model was exhausted -/
  | out_of_fuel

/-- What `Statement::Execute` leaves behind: the returned holder or the way
the call ended, and the closure and context, both of which it may modify. -/
structure Outcome where
  result : Except Abrupt ObjectHolder
  closure : Closure
  context : Context

/-- Modelled from the spec: the value type of `runtime::Number` is declared in
`runtime.h`, which is not among the sources; the specification gives
`Number(i64)`.  The least value of the type. -/
def Number.min : Int := -9223372036854775808

/-- Modelled from the spec: the greatest value of the type of a
`runtime::Number` (`Number(i64)`; `runtime.h` is not among the sources). -/
def Number.max : Int := 9223372036854775807

/-- The result of a C++ arithmetic operator on two values of the type of a
`Number`, given the result `value` in the integers: `value` itself when the
type can hold it; otherwise the operation overflows, which is undefined
behaviour for a signed type. -/
def Number.result (value : Int) : Except Abrupt Int :=
  if Number.min ≤ value ∧ value ≤ Number.max then .ok value else .error .undefined

/-! ## Calls, printing and comparison (`runtime.cpp`) -/

/-- The type of `Statement::Execute`. -/
abbrev Executor := Statement → Closure → Context → Outcome

/-- The loop of `ClassInstance::Call` that binds the formal parameters. -/
def Call.bind : Closure → List String → List ObjectHolder → Closure
  | symb_table, param :: params, arg :: args =>
    Call.bind (Map.assign symb_table param arg) params args
  | symb_table, _, _ => symb_table

/-- `ClassInstance::Call` on the instance at address `self`; `exec` is
`Statement::Execute`. -/
def Call (exec : Executor) (self : Nat) (method : String) (actual_args : List ObjectHolder)
    (context : Context) : Except Abrupt ObjectHolder × Context :=
  match context.heap.get? self with
  | none => (.error .undefined, context)
  | some inst =>
    if !inst.HasMethod method actual_args.length then
      (.error (.runtime_error "Not implemented"), context)
    else
      match inst.cls_.GetMethod method with
      | none => (.error .undefined, context)
      | some ptrMethod =>
        let symb_table : Closure := Map.assign [] "self" (some (.ClassInstance self))
        let symb_table := Call.bind symb_table ptrMethod.formal_params actual_args
        let o := exec ptrMethod.body symb_table context
        (o.result, o.context)

/-- Modelled from the spec: the text that `os << this` writes for an instance
without `__str__` ("an opaque identity tag"); it is implementation-defined. -/
def identityTag (addr : Nat) : String := "0x" ++ toString addr

/-- `Object::Print(os, context)`: the text written to `os`, and the context
after the calls made.  Every variant writes to `os` once, after the calls it
makes, so the caller appends the text on return.  `Number::Print` and
`String::Print` are modelled from the spec (`runtime.h` is not among the
sources): "`Number` as decimal; `String` as raw bytes".  The first argument
bounds the length of a chain of `__str__` results. -/
def PrintObject (exec : Executor) : Nat → Object → Context → Except Abrupt String × Context
  | 0, _, context => (.error .out_of_fuel, context)
  | n + 1, obj, context =>
    match obj with
    | .Number value => (.ok (toString value), context)
    | .String value => (.ok value, context)
    | .Bool value => (.ok (if value then "True" else "False"), context)
    | .Class cls => (.ok ("Class " ++ cls.GetName), context)
    | .ClassInstance self =>
      match context.heap.get? self with
      | none => (.error .undefined, context)
      | some inst =>
        if inst.HasMethod "__str__" 0 then
          match Call exec self "__str__" [] context with
          | (.error e, context) => (.error e, context)
          | (.ok none, context) => (.error .undefined, context)
          | (.ok (some result), context) => PrintObject exec n result context
        else (.ok (identityTag self), context)

/-- `operator<` of `std::string`: lexicographic order of the bytes. -/
def stringLess : List Char → List Char → Bool
  | _, [] => false
  | [], _ :: _ => true
  | a :: as, b :: bs =>
    if a.toNat < b.toNat then true
    else if b.toNat < a.toNat then false
    else stringLess as bs

/-- A call of a comparison method (`__eq__`, `__lt__`) on the instance at
`self`: `Call(method, { rhs }, context).TryAs<Bool>()->GetValue()`. -/
def callBool (exec : Executor) (self : Nat) (method : String) (rhs : ObjectHolder)
    (context : Context) : Except Abrupt Bool × Context :=
  match Call exec self method [rhs] context with
  | (.error e, context) => (.error e, context)
  | (.ok (some (.Bool value)), context) => (.ok value, context)
  | (.ok _, context) => (.error .undefined, context)

/-- Whether the holder points to a `ClassInstance` that has the method. -/
def holderHasMethod (context : Context) (object : ObjectHolder) (method : String)
    (argument_count : Nat) : Option Nat :=
  match object with
  | some (.ClassInstance self) =>
    match context.heap.get? self with
    | some inst => if inst.HasMethod method argument_count then some self else none
    | none => none
  | _ => none

/-- `Equal`. -/
def Equal (exec : Executor) (lhs rhs : ObjectHolder) (context : Context) :
    Except Abrupt Bool × Context :=
  match lhs, rhs with
  | some (.Number l), some (.Number r) => (.ok (l == r), context)
  | some (.String l), some (.String r) => (.ok (l == r), context)
  | some (.Bool l), some (.Bool r) => (.ok (l == r), context)
  | none, none => (.ok true, context)
  | _, _ =>
    match holderHasMethod context lhs "__eq__" 1 with
    | some self => callBool exec self "__eq__" rhs context
    | none => (.error (.runtime_error "Cannot compare objects for equality"), context)

/-- `Less`. -/
def Less (exec : Executor) (lhs rhs : ObjectHolder) (context : Context) :
    Except Abrupt Bool × Context :=
  match lhs, rhs with
  | some (.Number l), some (.Number r) => (.ok (decide (l < r)), context)
  | some (.String l), some (.String r) => (.ok (stringLess l.data r.data), context)
  | some (.Bool l), some (.Bool r) => (.ok (!l && r), context)
  | _, _ =>
    match holderHasMethod context lhs "__lt__" 1 with
    | some self => callBool exec self "__lt__" rhs context
    | none => (.error (.runtime_error "Cannot compare objects for less"), context)

/-- `NotEqual`. -/
def NotEqual (exec : Executor) (lhs rhs : ObjectHolder) (context : Context) :
    Except Abrupt Bool × Context :=
  match Equal exec lhs rhs context with
  | (.ok b, context) => (.ok (!b), context)
  | (.error e, context) => (.error e, context)

/-- `Greater`: `!Less(lhs, rhs, context) && !Equal(lhs, rhs, context)`. -/
def Greater (exec : Executor) (lhs rhs : ObjectHolder) (context : Context) :
    Except Abrupt Bool × Context :=
  match Less exec lhs rhs context with
  | (.error e, context) => (.error e, context)
  | (.ok true, context) => (.ok false, context)
  | (.ok false, context) =>
    match Equal exec lhs rhs context with
    | (.ok b, context) => (.ok (!b), context)
    | (.error e, context) => (.error e, context)

/-- `LessOrEqual`. -/
def LessOrEqual (exec : Executor) (lhs rhs : ObjectHolder) (context : Context) :
    Except Abrupt Bool × Context :=
  match Greater exec lhs rhs context with
  | (.ok b, context) => (.ok (!b), context)
  | (.error e, context) => (.error e, context)

/-- `GreaterOrEqual`. -/
def GreaterOrEqual (exec : Executor) (lhs rhs : ObjectHolder) (context : Context) :
    Except Abrupt Bool × Context :=
  match Less exec lhs rhs context with
  | (.ok b, context) => (.ok (!b), context)
  | (.error e, context) => (.error e, context)

/-- The function a `Comparator` stands for. -/
def Comparator.apply (cmp : Comparator) (exec : Executor) (lhs rhs : ObjectHolder)
    (context : Context) : Except Abrupt Bool × Context :=
  match cmp with
  | .Equal => runtime.Equal exec lhs rhs context
  | .NotEqual => runtime.NotEqual exec lhs rhs context
  | .Less => runtime.Less exec lhs rhs context
  | .Greater => runtime.Greater exec lhs rhs context
  | .LessOrEqual => runtime.LessOrEqual exec lhs rhs context
  | .GreaterOrEqual => runtime.GreaterOrEqual exec lhs rhs context

/-- The lookup that the specification describes for `GetMethod`: the
definition of `name` in the class itself, else in its parent, else in the
parent's parent, and so on; within one class the last definition of a name
stands, as in `name_to_method_`. -/
def Class.mostDerived : Class → String → Option Method
  | .mk _ methods_ parent_, name =>
    match Map.find (Class.insertMethods [] methods_) name with
    | some method => some method
    | none =>
      match parent_ with
      | some parent => Class.mostDerived parent name
      | none => none

/-- Modelled on the words of the specification ("lexicographic byte order"):
the lexicographic order of two strings by their bytes. -/
def lexLess (s t : String) : Prop :=
  List.Lex (fun a b : Nat => a < b) (s.data.map Char.toNat) (t.data.map Char.toNat)

instance (s t : String) : Decidable (lexLess s t) := by
  unfold lexLess
  infer_instance

end runtime

/-! ## Execution of the syntax tree (`statement.cpp`) -/

namespace ast

open runtime

/-- An outcome that returns a holder. -/
def returns (value : ObjectHolder) (closure : Closure) (context : Context) : Outcome :=
  { result := .ok value, closure := closure, context := context }

/-- An outcome that ends the call abruptly. -/
def raises (e : Abrupt) (closure : Closure) (context : Context) : Outcome :=
  { result := .error e, closure := closure, context := context }

/-- `context.GetOutputStream() << text`. -/
def write (context : Context) (text : String) : Context :=
  { context with output := context.output ++ text }

/-- The loops `for (const auto& arg : args_) v.push_back(arg->Execute(closure, context))`
of `MethodCall::Execute` and `NewInstance::Execute`. -/
def ExecuteArgs (exec : Executor) :
    List Statement → List ObjectHolder → Closure → Context →
      Except Abrupt (List ObjectHolder) × Closure × Context
  | [], object_args, closure, context => (.ok object_args, closure, context)
  | arg :: args, object_args, closure, context =>
    let o := exec arg closure context
    match o.result with
    | .error e => (.error e, o.closure, o.context)
    | .ok value => ExecuteArgs exec args (object_args ++ [value]) o.closure o.context

/-- The loop over the middle identifiers in `VariableValue::Execute`: each is
looked up in the fields of `class_ptr`, which the loop does not change. -/
def VariableValue.loop (fields : Closure) : List String → ObjectHolder → Except Abrupt ObjectHolder
  | [], obj => .ok obj
  | id :: ids, _ =>
    match Map.find fields id with
    | none => .error (.runtime_error "Accessing a non-existent field")
    | some item => VariableValue.loop fields ids item

/-- `VariableValue::Execute`; it modifies neither the closure nor the
context. -/
def VariableValue.Execute (dotted_ids_ : List String) (closure : Closure) (context : Context) :
    Except Abrupt ObjectHolder :=
  match dotted_ids_ with
  | [] => .error .undefined
  | [id] =>
    match Map.find closure id with
    | some value => .ok value
    | none => .error (.runtime_error "Unknown name")
  | id :: rest =>
    match Map.find closure id with
    | none => .error .out_of_range
    | some obj =>
      match obj with
      | some (.ClassInstance class_ptr) =>
        match context.heap.get? class_ptr with
        | none => .error .undefined
        | some inst =>
          match VariableValue.loop inst.fields_ rest.dropLast obj with
          | .error e => .error e
          | .ok (some (.ClassInstance last)) =>
            match context.heap.get? last with
            | none => .error .undefined
            | some lastInst =>
              match Map.find lastInst.fields_ (rest.getLastD id) with
              | some value => .ok value
              | none => .error (.runtime_error "Unknown name")
          | .ok _ => .error .undefined
      | _ => .error (.runtime_error "Accessing a non-existent field")

/-- The value written for one argument of `Print::Execute`:
`value->Print(os, context)`, or `"None"` for a null holder. -/
def Print.text (exec : Executor) (fuel : Nat) (value : ObjectHolder) (context : Context) :
    Except Abrupt String × Context :=
  match value with
  | some obj => PrintObject exec fuel obj context
  | none => (.ok "None", context)

/-- The loop of `Print::Execute`; `size` is `args_.size()`. -/
def Print.loop (exec : Executor) (fuel size : Nat) :
    List Statement → Bool → Closure → Context → Except Abrupt Unit × Closure × Context
  | [], _, closure, context => (.ok (), closure, context)
  | arg :: args, first, closure, context =>
    let o := exec arg closure context
    match o.result with
    | .error e => (.error e, o.closure, o.context)
    | .ok value =>
      let context := if !first then write o.context " " else o.context
      match Print.text exec fuel value context with
      | (.error e, context) => (.error e, o.closure, context)
      | (.ok text, context) =>
        let context := write context text
        if size == 1 then (.ok (), o.closure, context)
        else Print.loop exec fuel size args false o.closure context

/-- The loop of `Compound::Execute`. -/
def Compound.loop (exec : Executor) : List Statement → Closure → Context → Outcome
  | [], closure, context => returns none closure context
  | statement :: statements, closure, context =>
    let o := exec statement closure context
    match o.result with
    | .error _ => o
    | .ok _ => Compound.loop exec statements o.closure o.context

/-- `fields[field_name_] = value` on the instance at `addr`. -/
def setField (heap : List ClassInstance) (addr : Nat) (field_name : String)
    (value : ObjectHolder) : List ClassInstance :=
  match heap.get? addr with
  | none => heap
  | some inst => heap.set addr { inst with fields_ := Map.assign inst.fields_ field_name value }

/-- The common part of `Sub`, `Mult` and `Div`: both operands are evaluated,
left first; `op` is applied to two numbers. -/
def arithmetic (exec : Executor) (lhs rhs : Option Statement) (what : String)
    (op : Int → Int → Except Abrupt Int) (closure : Closure) (context : Context) : Outcome :=
  match lhs, rhs with
  | some lhs, some rhs =>
    let ol := exec lhs closure context
    match ol.result with
    | .error _ => ol
    | .ok obj_lhs =>
      let or := exec rhs ol.closure ol.context
      match or.result with
      | .error _ => or
      | .ok obj_rhs =>
        match obj_lhs, obj_rhs with
        | some (.Number l_num), some (.Number r_num) =>
          match op l_num r_num with
          | .ok value => returns (some (.Number value)) or.closure or.context
          | .error e => raises e or.closure or.context
        | _, _ => raises (.runtime_error what) or.closure or.context
  | _, _ => raises (.runtime_error "Null operands are not supported") closure context

/-- Modelled from the spec: `MakeOperation`, the helper of `Or::Execute` and
`And::Execute`, is defined in `statement.h`, which is not among the sources.
"If `IsTrue(lhs)` return `Bool(true)`; else `Bool(IsTrue(rhs))`" for `Or`
(`isOr`), "if `IsTrue(lhs)` return the `Bool` result of `IsTrue(rhs)`; else
return `Bool(false)`" for `And`. -/
def MakeOperation (exec : Executor) (isOr : Bool) (lhs_arg : ObjectHolder) (rhs : Statement)
    (closure : Closure) (context : Context) : Outcome :=
  if IsTrue lhs_arg == isOr then returns (some (.Bool isOr)) closure context
  else
    let o := exec rhs closure context
    match o.result with
    | .error _ => o
    | .ok value => returns (some (.Bool (IsTrue value))) o.closure o.context

/-- One call of `Statement::Execute`, given the executor `exec` for the calls
it makes and the budget `fuel` for printing. -/
def Execute (exec : Executor) (fuel : Nat) (statement : Statement) (closure : Closure)
    (context : Context) : Outcome :=
  match statement with
  | .Assignment var_ rv_ =>
    let o := exec rv_ closure context
    match o.result with
    | .error _ => o
    | .ok value => returns value (Map.assign o.closure var_ value) o.context
  | .VariableValue dotted_ids_ =>
    match VariableValue.Execute dotted_ids_ closure context with
    | .ok value => returns value closure context
    | .error e => raises e closure context
  | .Print args_ =>
    match Print.loop exec fuel args_.length args_ true closure context with
    | (.error e, closure, context) => raises e closure context
    | (.ok _, closure, context) => returns none closure (write context "\n")
  | .MethodCall object_ method_ args_ =>
    match ExecuteArgs exec args_ [] closure context with
    | (.error e, closure, context) => raises e closure context
    | (.ok object_args, closure, context) =>
      let o := exec object_ closure context
      match o.result with
      | .error _ => o
      | .ok (some (.ClassInstance cls)) =>
        match Call exec cls method_ object_args o.context with
        | (.ok value, context) => returns value o.closure context
        | (.error e, context) => raises e o.closure context
      | .ok _ => raises (.runtime_error "Accessing a non-existent field") o.closure o.context
  | .Stringify arg =>
    let o := exec arg closure context
    match o.result with
    | .error _ => o
    | .ok (some (.Class _)) => returns (some (.String "None")) o.closure o.context
    | .ok none => returns (some (.String "None")) o.closure o.context
    | .ok (some obj) =>
      match PrintObject exec fuel obj o.context with
      | (.ok out, context) => returns (some (.String out)) o.closure context
      | (.error e, context) => raises e o.closure context
  | .Add lhs rhs =>
    match lhs, rhs with
    | some lhs, some rhs =>
      let ol := exec lhs closure context
      match ol.result with
      | .error _ => ol
      | .ok obj_lhs =>
        let or := exec rhs ol.closure ol.context
        match or.result with
        | .error _ => or
        | .ok obj_rhs =>
          match obj_lhs, obj_rhs with
          | some (.Number l_val), some (.Number r_val) =>
            match Number.result (l_val + r_val) with
            | .ok value => returns (some (.Number value)) or.closure or.context
            | .error e => raises e or.closure or.context
          | some (.String l_val), some (.String r_val) =>
            returns (some (.String (l_val ++ r_val))) or.closure or.context
          | _, _ =>
            match holderHasMethod or.context obj_lhs "__add__" 1 with
            | some self =>
              match Call exec self "__add__" [obj_rhs] or.context with
              | (.ok value, context) => returns value or.closure context
              | (.error e, context) => raises e or.closure context
            | none => raises (.runtime_error "Add operands are illegal") or.closure or.context
    | _, _ => raises (.runtime_error "Null operands are not supported") closure context
  | .Sub lhs rhs =>
    arithmetic exec lhs rhs "Substrict operands are illegal" (fun l r => Number.result (l - r))
      closure context
  | .Mult lhs rhs =>
    arithmetic exec lhs rhs "Multiply operands are illegal" (fun l r => Number.result (l * r))
      closure context
  | .Div lhs rhs =>
    arithmetic exec lhs rhs "Division operands are illegal"
      (fun l r =>
        if r = 0 then .error (.runtime_error "Division by zero")
        else Number.result (Int.tdiv l r))
      closure context
  | .Compound statements_ => Compound.loop exec statements_ closure context
  | .Return statement_ =>
    let o := exec statement_ closure context
    match o.result with
    | .error _ => o
    | .ok value => raises (.thrown value) o.closure o.context
  | .ClassDefinition cls_ =>
    match cls_ with
    | some (.Class cls) => returns cls_ (Map.assign closure cls.GetName cls_) context
    | _ => raises .undefined closure context
  | .FieldAssignment object_ field_name_ rv_ =>
    match VariableValue.Execute object_ closure context with
    | .error e => raises e closure context
    | .ok (some (.ClassInstance cls)) =>
      let o := exec rv_ closure context
      match o.result with
      | .error _ => o
      | .ok value =>
        returns value o.closure
          { o.context with heap := setField o.context.heap cls field_name_ value }
    | .ok _ =>
      raises (.runtime_error "Attempting to access a non-instance class field") closure context
  | .IfElse condition_ if_body_ else_body_ =>
    let o := exec condition_ closure context
    match o.result with
    | .error _ => o
    | .ok bool_condition =>
      if IsTrue bool_condition then exec if_body_ o.closure o.context
      else
        match else_body_ with
        | some else_body => exec else_body o.closure o.context
        | none => returns none o.closure o.context
  | .Or lhs rhs =>
    let o := exec lhs closure context
    match o.result with
    | .error _ => o
    | .ok (some (.Bool v)) => MakeOperation exec true (some (.Bool v)) rhs o.closure o.context
    | .ok (some (.Number v)) => MakeOperation exec true (some (.Number v)) rhs o.closure o.context
    | .ok _ => raises (.runtime_error "Value does not bool value") o.closure o.context
  | .And lhs rhs =>
    let o := exec lhs closure context
    match o.result with
    | .error _ => o
    | .ok (some (.Bool v)) => MakeOperation exec false (some (.Bool v)) rhs o.closure o.context
    | .ok (some (.Number v)) => MakeOperation exec false (some (.Number v)) rhs o.closure o.context
    | .ok _ => raises (.runtime_error "Value does not bool value") o.closure o.context
  | .Not arg =>
    let o := exec arg closure context
    match o.result with
    | .error _ => o
    | .ok (some (.Bool v)) => returns (some (.Bool (!v))) o.closure o.context
    | .ok (some (.Number v)) => returns (some (.Bool (v == 0))) o.closure o.context
    | .ok _ => raises (.runtime_error "Value does not bool value") o.closure o.context
  | .Comparison cmp_ lhs rhs =>
    -- the order in which the two operands are evaluated is unspecified in
    -- C++; the model evaluates the left one first
    let ol := exec lhs closure context
    match ol.result with
    | .error _ => ol
    | .ok obj_lhs =>
      let or := exec rhs ol.closure ol.context
      match or.result with
      | .error _ => or
      | .ok obj_rhs =>
        match cmp_.apply exec obj_lhs obj_rhs or.context with
        | (.ok b, context) => returns (some (.Bool b)) or.closure context
        | (.error e, context) => raises e or.closure context
  | .NewInstance class__ args_ =>
    let oh := context.heap.length
    let class_inst_ : ClassInstance := { cls_ := class__, fields_ := [] }
    let context := { context with heap := context.heap ++ [class_inst_] }
    if class_inst_.HasMethod "__init__" args_.length then
      match ExecuteArgs exec args_ [] closure context with
      | (.error e, closure, context) => raises e closure context
      | (.ok new_args, closure, context) =>
        match Call exec oh "__init__" new_args context with
        | (.ok _, context) => returns (some (.ClassInstance oh)) closure context
        | (.error e, context) => raises e closure context
    else returns (some (.ClassInstance oh)) closure context
  | .MethodBody body_ =>
    let o := exec body_ closure context
    match o.result with
    | .error (.thrown obj) => { o with result := .ok obj }
    | _ => o
  | .ValueStatement value_ => returns (some value_) closure context

/-- `Statement::Execute` with a budget: `fuel` bounds the depth of nested
calls of `Execute` (and the length of a chain of `__str__` results). -/
def Exec : Nat → Executor
  | 0 => fun _ closure context => raises .out_of_fuel closure context
  | fuel + 1 => Execute (Exec fuel) fuel

/-! ## Vocabulary of the executor's properties -/

/-- A position inside `Compound` and `IfElse` nodes nested to any depth. -/
inductive Nest where
  | here
  | compound (before : List Statement) (inner : Nest) (after : List Statement)
  | if_body (condition_ : Statement) (inner : Nest) (else_body_ : Option Statement)
  | else_body (condition_ if_body_ : Statement) (inner : Nest)

/-- The statement that has `statement` at the position. -/
def Nest.fill : Nest → Statement → Statement
  | .here, statement => statement
  | .compound before inner after, statement =>
    .Compound (before ++ inner.fill statement :: after)
  | .if_body condition_ inner else_body_, statement =>
    .IfElse condition_ (inner.fill statement) else_body_
  | .else_body condition_ if_body_ inner, statement =>
    .IfElse condition_ if_body_ (some (inner.fill statement))

/-- The number of nodes around the position. -/
def Nest.depth : Nest → Nat
  | .here => 0
  | .compound _ inner _ => inner.depth + 1
  | .if_body _ inner _ => inner.depth + 1
  | .else_body _ _ inner => inner.depth + 1

/-- `nest.reaches fuel closure context closure' context'`: execution of the
statement around the position, started with `closure` and `context`, arrives
at the position with `closure'` and `context'`: in every `Compound` on the way
the statements before the position return, and every condition on the way
selects the branch that holds the position.  `fuel` is the budget of the
statement at the position; a node `k` levels above it runs with `fuel + k`. -/
def Nest.reaches (fuel : Nat) : Nest → Closure → Context → Closure → Context → Prop
  | .here, closure, context, closure', context' => closure' = closure ∧ context' = context
  | .compound before inner _, closure, context, closure', context' =>
    ∃ c x, Compound.loop (Exec (fuel + inner.depth)) before closure context = returns none c x ∧
      inner.reaches fuel c x closure' context'
  | .if_body condition_ inner _, closure, context, closure', context' =>
    ∃ v c x, Exec (fuel + inner.depth) condition_ closure context = returns v c x ∧
      IsTrue v = true ∧ inner.reaches fuel c x closure' context'
  | .else_body condition_ _ inner, closure, context, closure', context' =>
    ∃ v c x, Exec (fuel + inner.depth) condition_ closure context = returns v c x ∧
      IsTrue v = false ∧ inner.reaches fuel c x closure' context'

/-! ## The lookups and loops that the specification describes -/

/-- Modelled on the words of the specification ("for each intermediate `id_i`
follow `.Fields()[id_i]` (must be a `ClassInstance`)"): the value reached from
`obj` by following the fields `ids` in sequence, each looked up in the
instance reached through the one before; `none` where the specification asks
for an error (an object on the way is not an instance, or a field is
missing). -/
def VariableValue.reached (context : Context) : ObjectHolder → List String → Option ObjectHolder
  | obj, [] => some obj
  | obj, id :: ids =>
    match obj with
    | some (.ClassInstance addr) =>
      match context.heap.get? addr with
      | none => none
      | some inst =>
        match Map.find inst.fields_ id with
        | some value => VariableValue.reached context value ids
        | none => none
    | _ => none

end ast

/-! # Lemmas about the class model -/

namespace runtime

theorem Map.find_assign {β : Type} (m : Map β) (key name : String) (value : β) :
    Map.find (Map.assign m key value) name =
      if key = name then some value else Map.find m name := by
  induction m with
  | nil => simp [Map.assign, Map.find]
  | cons p rest ih =>
    obtain ⟨k, v⟩ := p
    simp only [Map.assign]
    by_cases hk : k = key
    · subst hk
      by_cases hn : k = name
      · simp [Map.find, hn]
      · simp [Map.find, hn]
    · rw [if_neg hk]
      by_cases hn : k = name
      · have : ¬ key = name := fun h => hk (hn.trans h.symm)
        simp [Map.find, hn, this]
      · simp [Map.find, hn, ih]

/-- Looking a name up after the methods of one class were inserted: the last
of them with that name, else what the table held before. -/
theorem Class.find_insertMethods (table : Map Method) (methods : List Method) (name : String) :
    Map.find (Class.insertMethods table methods) name =
      match Map.find (Class.insertMethods [] methods) name with
      | some method => some method
      | none => Map.find table name := by
  induction methods generalizing table with
  | nil => simp [Class.insertMethods, Map.find]
  | cons m ms ih =>
    have h1 := ih (Map.assign table m.name m)
    have h2 := ih (Map.assign [] m.name m)
    simp only [Class.insertMethods, List.foldl_cons] at h1 h2 ⊢
    rw [h1, h2]
    cases Map.find (List.foldl (fun table method => Map.assign table method.name method) [] ms)
      name with
    | some x => rfl
    | none =>
      simp only [Map.find_assign]
      by_cases hn : m.name = name
      · simp [hn]
      · simp [hn, Map.find]

/-- For a class without a parent, or whose parent has none, `GetMethod` is the
lookup along the chain. -/
theorem Class.GetMethod_eq_mostDerived (c : Class) (name : String)
    (h : ∀ parent, c.parent_ = some parent → parent.parent_ = none) :
    c.GetMethod name = c.mostDerived name := by
  obtain ⟨n, ms, parent⟩ := c
  cases parent with
  | none =>
    simp only [Class.GetMethod, Class.name_to_method_, Class.parent_, Class.methods_,
      Class.mostDerived]
    cases Map.find (Class.insertMethods [] ms) name <;> rfl
  | some p =>
    obtain ⟨pn, pms, pp⟩ := p
    have hp : pp = none := h _ rfl
    subst hp
    simp only [Class.GetMethod, Class.name_to_method_, Class.parent_, Class.methods_,
      Class.mostDerived]
    rw [Class.find_insertMethods]
    cases Map.find (Class.insertMethods [] ms) name with
    | some x => rfl
    | none =>
      simp only []
      cases Map.find (Class.insertMethods [] pms) name <;> rfl

/-- Assigning to a key the map does not hold appends the entry. -/
theorem Map.assign_fresh {β : Type} (m : Map β) (key : String) (value : β)
    (h : Map.find m key = none) : Map.assign m key value = m ++ [(key, value)] := by
  induction m with
  | nil => rfl
  | cons p rest ih =>
    obtain ⟨k, v⟩ := p
    by_cases hk : k = key
    · simp [Map.find, hk] at h
    · simp only [Map.find, if_neg hk] at h
      simp [Map.assign, hk, ih h]

/-- Binding pairwise distinct parameters that the table does not hold appends
them, each with the argument at its position. -/
theorem Call.bind_fresh (table : Closure) (params : List String) (args : List ObjectHolder)
    (hlen : params.length = args.length) (hnodup : params.Nodup)
    (hfresh : ∀ p ∈ params, Map.find table p = none) :
    Call.bind table params args = table ++ List.zip params args := by
  induction params generalizing table args with
  | nil => cases args <;> simp [Call.bind]
  | cons p ps ih =>
    cases args with
    | nil => simp at hlen
    | cons a as =>
      simp only [Call.bind]
      rw [List.nodup_cons] at hnodup
      rw [Map.assign_fresh table p a (hfresh p (List.mem_cons_self _ _))]
      rw [ih (table ++ [(p, a)]) as (by simpa using hlen) hnodup.2]
      · simp
      · intro q hq
        have hne : ¬ p = q := fun h => hnodup.1 (h ▸ hq)
        have := Map.find_assign table p q a
        rw [Map.assign_fresh table p a (hfresh p (List.mem_cons_self _ _))] at this
        rw [this, if_neg hne]
        exact hfresh q (List.mem_cons_of_mem _ hq)

/-- Methods inserted after a definition of `name`, none of which has that
name, leave the definition in place. -/
theorem Class.find_insertMethods_of_ne (table : Map Method) (methods : List Method)
    (name : String) (h : ∀ m ∈ methods, m.name ≠ name) :
    Map.find (Class.insertMethods table methods) name = Map.find table name := by
  induction methods generalizing table with
  | nil => rfl
  | cons m ms ih =>
    simp only [Class.insertMethods, List.foldl_cons]
    have := ih (Map.assign table m.name m) (fun x hx => h x (List.mem_cons_of_mem _ hx))
    simp only [Class.insertMethods] at this
    rw [this, Map.find_assign, if_neg (h m (List.mem_cons_self _ _))]

/-- The last definition of a name in a list of methods is the one found after
the list was inserted. -/
theorem Class.find_insertMethods_last (table : Map Method) (before after : List Method)
    (own : Method) (hlast : ∀ m ∈ after, m.name ≠ own.name) :
    Map.find (Class.insertMethods table (before ++ own :: after)) own.name = some own := by
  have h := Class.find_insertMethods_of_ne
    (Map.assign (Class.insertMethods table before) own.name own) after own.name hlast
  simp only [Class.insertMethods, List.foldl_append, List.foldl_cons] at h ⊢
  rw [h, Map.find_assign, if_pos rfl]

/-- The last definition of a name among the own methods of a class is the one
`GetMethod` finds, whatever the parent declares. -/
theorem Class.GetMethod_own (name_ : String) (before after : List Method) (own : Method)
    (parent_ : Option Class) (hlast : ∀ m ∈ after, m.name ≠ own.name) :
    (Class.mk name_ (before ++ own :: after) parent_).GetMethod own.name = some own :=
  Class.find_insertMethods_last _ before after own hlast

/-- What `Call` does on an instance that has the method. -/
theorem Call_of_GetMethod (exec : Executor) (self : Nat) (inst : ClassInstance)
    (method : String) (actual_args : List ObjectHolder) (context : Context) (m : Method)
    (hinst : context.heap.get? self = some inst)
    (hm : inst.cls_.GetMethod method = some m)
    (hlen : m.formal_params.length = actual_args.length) :
    Call exec self method actual_args context =
      ((exec m.body (Call.bind [("self", some (.ClassInstance self))] m.formal_params
          actual_args) context).result,
        (exec m.body (Call.bind [("self", some (.ClassInstance self))] m.formal_params
          actual_args) context).context) := by
  simp only [Call, hinst, ClassInstance.HasMethod, hm, hlen, beq_self_eq_true, Bool.not_true,
    Bool.false_eq_true, if_false, Map.assign]

/-- A name that one of the inserted methods has is found afterwards, as one
of them. -/
theorem Class.find_insertMethods_mem (table : Map Method) (methods : List Method)
    (name : String) (hm : ∃ m ∈ methods, m.name = name) :
    ∃ p ∈ methods, Map.find (Class.insertMethods table methods) name = some p := by
  induction methods generalizing table with
  | nil => simp at hm
  | cons x xs ih =>
    by_cases h : ∃ y ∈ xs, y.name = name
    · obtain ⟨p, hp, hfind⟩ := ih (Map.assign table x.name x) h
      exact ⟨p, List.mem_cons_of_mem _ hp, by
        simpa only [Class.insertMethods, List.foldl_cons] using hfind⟩
    · have hne : ∀ y ∈ xs, y.name ≠ name := fun y hy hname => h ⟨y, hy, hname⟩
      obtain ⟨m, hmem, hname⟩ := hm
      have hx : m = x := by
        rcases List.mem_cons.1 hmem with h1 | h1
        · exact h1
        · exact absurd hname (hne m h1)
      subst hx
      refine ⟨m, List.mem_cons_self _ _, ?_⟩
      have := Class.find_insertMethods_of_ne (Map.assign table m.name m) xs name hne
      simp only [Class.insertMethods, List.foldl_cons] at this ⊢
      rw [this, Map.find_assign, if_pos hname]

/-- A holder that is not an instance with the method has none. -/
theorem holderHasMethod_eq_none (context : Context) (a : ObjectHolder) (method : String)
    (argument_count : Nat)
    (h : ∀ self inst, a = some (.ClassInstance self) → context.heap.get? self = some inst →
      inst.HasMethod method argument_count = false) :
    holderHasMethod context a method argument_count = none := by
  unfold holderHasMethod
  split
  · rename_i self
    split
    · rename_i inst hget
      rw [h self inst rfl hget]
      rfl
    · rfl
  · rfl

/-- An instance with the method is one. -/
theorem holderHasMethod_eq_some (context : Context) (self : Nat) (inst : ClassInstance)
    (method : String) (argument_count : Nat) (hinst : context.heap.get? self = some inst)
    (h : inst.HasMethod method argument_count = true) :
    holderHasMethod context (some (.ClassInstance self)) method argument_count = some self := by
  simp only [holderHasMethod, hinst, h, if_true]

/-- Two bytes with the same code are the same byte. -/
theorem Char.toNat_inj (a b : Char) (h : a.toNat = b.toNat) : a = b := by
  apply Char.ext
  apply UInt32.ext
  exact h

/-- The lexicographic order on two non-empty lists. -/
theorem lex_cons_iff (x y : Nat) (xs ys : List Nat) :
    List.Lex (fun a b : Nat => a < b) (x :: xs) (y :: ys) ↔
      x < y ∨ (x = y ∧ List.Lex (fun a b : Nat => a < b) xs ys) := by
  constructor
  · intro h
    cases h with
    | cons h => exact Or.inr ⟨rfl, h⟩
    | rel h => exact Or.inl h
  · rintro (h | ⟨rfl, h⟩)
    · exact List.Lex.rel h
    · exact List.Lex.cons h

/-- The function `stringLess` decides the lexicographic order of the bytes. -/
theorem stringLess_iff_Lex (s t : List Char) :
    stringLess s t = true ↔
      List.Lex (fun a b : Nat => a < b) (s.map Char.toNat) (t.map Char.toNat) := by
  induction s generalizing t with
  | nil =>
    cases t with
    | nil => simp [stringLess]
    | cons b bs => simp [stringLess, List.Lex.nil]
  | cons a as ih =>
    cases t with
    | nil => simp [stringLess]
    | cons b bs =>
      simp only [stringLess, List.map_cons, lex_cons_iff]
      by_cases h1 : a.toNat < b.toNat
      · simp [h1]
      · by_cases h2 : b.toNat < a.toNat
        · have hne : ¬ a.toNat = b.toNat := by omega
          simp [h1, h2, hne]
        · have heq : a.toNat = b.toNat := by omega
          simp only [heq, lt_irrefl, if_false, false_or, true_and, ih bs]

theorem stringLess_irrefl (s : List Char) : stringLess s s = false := by
  induction s with
  | nil => rfl
  | cons a as ih => simp [stringLess, ih]

theorem stringLess_asymm (s t : List Char) (h : stringLess s t = true) :
    stringLess t s = false := by
  induction s generalizing t with
  | nil => cases t <;> simp_all [stringLess]
  | cons a as ih =>
    cases t with
    | nil => simp [stringLess] at h
    | cons b bs =>
      simp only [stringLess] at h ⊢
      by_cases h1 : a.toNat < b.toNat
      · have h2 : ¬ b.toNat < a.toNat := by omega
        simp [h1, h2]
      · by_cases h2 : b.toNat < a.toNat
        · simp [h1, h2] at h
        · simp only [h1, h2, if_false] at h ⊢
          exact ih bs h

theorem stringLess_total (s t : List Char) (h : stringLess s t = false) (hne : s ≠ t) :
    stringLess t s = true := by
  induction s generalizing t with
  | nil =>
    cases t with
    | nil => exact absurd rfl hne
    | cons b bs => simp [stringLess] at h
  | cons a as ih =>
    cases t with
    | nil => simp [stringLess]
    | cons b bs =>
      simp only [stringLess] at h ⊢
      by_cases h1 : a.toNat < b.toNat
      · simp [h1] at h
      · by_cases h2 : b.toNat < a.toNat
        · simp [h2]
        · simp only [h1, h2, if_false] at h ⊢
          have heq : a = b := Char.toNat_inj a b (by omega)
          subst heq
          exact ih bs h (fun hab => hne (by rw [hab]))


/-- A boolean that is true exactly when `p` holds is `decide p`. -/
theorem Bool.eq_decide_of_iff (b : Bool) (p : Prop) [Decidable p] (h : b = true ↔ p) :
    b = decide p := by
  cases b <;> simp_all

end runtime

/-! # Lemmas about the lexer -/

namespace parse

theorem Token.isLayout_ite (c : Prop) [Decidable c] (a b : Token)
    (ha : a.isLayout = false) (hb : b.isLayout = false) :
    (if c then a else b).isLayout = false := by
  by_cases h : c
  · rw [if_pos h]; exact ha
  · rw [if_neg h]; exact hb

theorem ReadId.token_not_layout (s : String) : Token.isLayout (ReadId.token s) = false := by
  unfold ReadId.token
  repeat (first | rfl | apply Token.isLayout_ite)

theorem ReadNumber_push (is is' : IStream) (l l' : Lexer) (h : ReadNumber is l = .ok (is', l')) :
    ∃ d, l' = l.push_back (Token.Number d) := by
  simp only [ReadNumber] at h
  split at h
  · cases h
  · next d is2 _ =>
    simp only [Except.ok.injEq, Prod.mk.injEq] at h
    exact ⟨d, h.2.symm⟩

theorem ReadSign_push (is : IStream) (ch : Char) (l : Lexer) :
    ∃ t, (ReadSign is ch l).2 = l.push_back t ∧ t.isLayout = false := by
  unfold ReadSign
  split
  · split
    split
    · split
      · exact ⟨_, rfl, rfl⟩
      · split
        · exact ⟨_, rfl, rfl⟩
        · split
          · exact ⟨_, rfl, rfl⟩
          · exact ⟨_, rfl, rfl⟩
    · exact ⟨_, rfl, rfl⟩
  · split
    · exact ⟨_, rfl, rfl⟩
    · split
      · exact ⟨_, rfl, rfl⟩
      · exact ⟨_, rfl, ReadId.token_not_layout _⟩

theorem ReadLine.loop_true (n : Nat) (is : IStream) (l l' : Lexer)
    (h : ReadLine.loop n is true l = .ok l') :
    ∃ content, l' = { tokens_ := l.tokens_ ++ content ++ [Token.Newline],
                      number_spaces := l.number_spaces } ∧
      ∀ t ∈ content, Token.isLayout t = false := by
  induction n generalizing is l with
  | zero => simp [ReadLine.loop] at h
  | succ n ih =>
    simp only [ReadLine.loop] at h
    split at h
    · simp only [if_true, Except.ok.injEq] at h
      exact ⟨[], by simp [← h, Lexer.push_back], by simp⟩
    · next ch is1 _ =>
      split at h
      · exact ih _ _ h
      · split at h
        · simp only [Except.ok.injEq] at h
          exact ⟨[], by simp [← h, Lexer.push_back], by simp⟩
        · split at h
          · split at h
            · cases h
            · next is2 l2 hnum =>
              obtain ⟨d, rfl⟩ := ReadNumber_push _ _ _ _ hnum
              obtain ⟨content, rfl, hc⟩ := ih _ _ h
              refine ⟨Token.Number d :: content, by simp [Lexer.push_back], ?_⟩
              intro t ht
              rcases List.mem_cons.1 ht with rfl | ht
              · rfl
              · exact hc t ht
          · split at h
            · obtain ⟨t0, ht0, hlay⟩ := ReadSign_push is1 ch l
              rw [ht0] at h
              obtain ⟨content, rfl, hc⟩ := ih _ _ h
              refine ⟨t0 :: content, by simp [Lexer.push_back], ?_⟩
              intro t ht
              rcases List.mem_cons.1 ht with rfl | ht
              · exact hlay
              · exact hc t ht
            · exact ih _ _ h

/-- Without a token seen so far the loop either leaves the lexer as it is (the
stream held only spaces) or behaves as above. -/
theorem ReadLine.loop_false (n : Nat) (is : IStream) (l l' : Lexer)
    (h : ReadLine.loop n is false l = .ok l') :
    (l' = l ∧ (is.good = true → ∀ c ∈ is.after, c = ' ')) ∨
    ∃ content, l' = { tokens_ := l.tokens_ ++ content ++ [Token.Newline],
                      number_spaces := l.number_spaces } ∧
      ∀ t ∈ content, Token.isLayout t = false := by
  induction n generalizing is l with
  | zero => simp [ReadLine.loop] at h
  | succ n ih =>
    simp only [ReadLine.loop] at h
    split at h
    · next is1 hget =>
      left
      simp only [Bool.false_eq_true, if_false, Except.ok.injEq] at h
      refine ⟨h.symm, fun hg c hc => ?_⟩
      simp only [IStream.get, hg, if_true] at hget
      split at hget
      · next hnil => rw [hnil] at hc; cases hc
      · cases hget
    · next ch is1 hget =>
      have hgood : is.good = true ∧ is.after = ch :: is1.after ∧ is1.good = true := by
        simp only [IStream.get] at hget
        split at hget
        · next hg =>
          split at hget
          · cases hget
          · next c rest hafter =>
            simp only [Prod.mk.injEq, Option.some.injEq] at hget
            obtain ⟨rfl, rfl⟩ := hget
            exact ⟨hg, hafter, by simpa [IStream.good] using hg⟩
        · cases hget
      split at h
      · next hsp =>
        rcases ih _ _ h with ⟨rfl, hall⟩ | hrest
        · left
          refine ⟨rfl, fun _ c hc => ?_⟩
          rw [hgood.2.1] at hc
          rcases List.mem_cons.1 hc with rfl | hc
          · exact hsp
          · exact hall hgood.2.2 c hc
        · exact Or.inr hrest
      · right
        split at h
        · simp only [Except.ok.injEq] at h
          exact ⟨[], by simp [← h, Lexer.push_back], by simp⟩
        · split at h
          · split at h
            · cases h
            · next is2 l2 hnum =>
              obtain ⟨d, rfl⟩ := ReadNumber_push _ _ _ _ hnum
              obtain ⟨content, rfl, hc⟩ := ReadLine.loop_true _ _ _ _ h
              refine ⟨Token.Number d :: content, by simp [Lexer.push_back], ?_⟩
              intro t ht
              rcases List.mem_cons.1 ht with rfl | ht
              · rfl
              · exact hc t ht
          · split at h
            · obtain ⟨t0, ht0, hlay⟩ := ReadSign_push is1 ch l
              rw [ht0] at h
              obtain ⟨content, rfl, hc⟩ := ReadLine.loop_true _ _ _ _ h
              refine ⟨t0 :: content, by simp [Lexer.push_back], ?_⟩
              intro t ht
              rcases List.mem_cons.1 ht with rfl | ht
              · exact hlay
              · exact hc t ht
            · obtain ⟨content, rfl, hc⟩ := ReadLine.loop_true _ _ _ _ h
              exact ⟨content, rfl, hc⟩

theorem SetIndent.indentLoop_eq (n i new_level : Nat) (l : Lexer) (h : new_level - i ≤ n) :
    SetIndent.indentLoop n i new_level l =
      { tokens_ := l.tokens_ ++ List.replicate (new_level - i) Token.Indent,
        number_spaces := l.number_spaces } := by
  induction n generalizing i l with
  | zero =>
    have : new_level - i = 0 := by omega
    simp [SetIndent.indentLoop, this]
  | succ n ih =>
    simp only [SetIndent.indentLoop]
    split
    · next hlt =>
      rw [ih (i + 1) _ (by omega)]
      have : new_level - i = (new_level - (i + 1)) + 1 := by omega
      rw [this, List.replicate_succ]
      simp [Lexer.push_back]
    · next hge =>
      have : new_level - i = 0 := by omega
      simp [this]

theorem SetIndent.dedentLoop_eq (n i new_level : Nat) (l : Lexer) (h : i - new_level ≤ n) :
    SetIndent.dedentLoop n i new_level l =
      { tokens_ := l.tokens_ ++ List.replicate (i - new_level) Token.Dedent,
        number_spaces := l.number_spaces } := by
  induction n generalizing i l with
  | zero =>
    have : i - new_level = 0 := by omega
    simp [SetIndent.dedentLoop, this]
  | succ n ih =>
    simp only [SetIndent.dedentLoop]
    split
    · next hlt =>
      rw [ih (i - 1) _ (by omega)]
      have : i - new_level = (i - 1 - new_level) + 1 := by omega
      rw [this, List.replicate_succ]
      simp [Lexer.push_back]
    · next hge =>
      have : i - new_level = 0 := by omega
      simp [this]

/-- `SetIndent` in closed form. -/
theorem SetIndent_eq (l : Lexer) (new_level : Nat) :
    SetIndent l new_level =
      { tokens_ := l.tokens_ ++ List.replicate (new_level - l.number_spaces) Token.Indent ++
          List.replicate (l.number_spaces - new_level) Token.Dedent,
        number_spaces := new_level } := by
  simp only [SetIndent]
  rw [SetIndent.indentLoop_eq _ _ _ _ (by omega), SetIndent.dedentLoop_eq _ _ _ _ (by simp)]
  simp only []
  split
  · rfl
  · next h =>
    have : l.number_spaces = new_level := by simpa using h
    simp [this]

/-- What `ReadLine` appends holds no `Indent`, `Dedent` or `Eof`, and it leaves
`number_spaces` alone. -/
theorem ReadLine_appends (fuel : Nat) (is : IStream) (l l' : Lexer)
    (h : ReadLine fuel is l = .ok l') :
    l'.number_spaces = l.number_spaces ∧
    ∃ extra, l'.tokens_ = l.tokens_ ++ extra ∧
      ∀ t ∈ extra, t ≠ Token.Indent ∧ t ≠ Token.Dedent ∧ t ≠ Token.Eof := by
  have key : ∀ content : List Token, (∀ t ∈ content, Token.isLayout t = false) →
      ∀ t ∈ content ++ [Token.Newline], t ≠ Token.Indent ∧ t ≠ Token.Dedent ∧ t ≠ Token.Eof := by
    intro content hc t ht
    rcases List.mem_append.1 ht with ht | ht
    · have := hc t ht
      refine ⟨?_, ?_, ?_⟩ <;> rintro rfl <;> simp [Token.isLayout] at this
    · simp only [List.mem_singleton] at ht
      subst ht
      simp
  rcases ReadLine.loop_false fuel is l l' h with ⟨rfl, _⟩ | ⟨content, rfl, hc⟩
  · exact ⟨rfl, [], by simp, by simp⟩
  · exact ⟨rfl, content ++ [Token.Newline], by simp, key content hc⟩

theorem SetIndent_balanced (l : Lexer) (new_level : Nat) (h : l.balanced) :
    (SetIndent l new_level).balanced := by
  rw [SetIndent_eq]
  obtain ⟨hc, he⟩ := h
  refine ⟨?_, ?_⟩
  · simp only [List.count_append, List.count_replicate]
    simp
    omega
  · simp only [List.mem_append, List.mem_replicate, not_or]
    exact ⟨⟨he, by simp⟩, by simp⟩

theorem ReadLine_balanced (fuel : Nat) (is : IStream) (l l' : Lexer) (h : l.balanced)
    (hr : ReadLine fuel is l = .ok l') : l'.balanced := by
  obtain ⟨hns, extra, ht, hex⟩ := ReadLine_appends fuel is l l' hr
  obtain ⟨hc, he⟩ := h
  have hI : extra.count Token.Indent = 0 :=
    List.count_eq_zero.2 (fun hm => (hex _ hm).1 rfl)
  have hD : extra.count Token.Dedent = 0 :=
    List.count_eq_zero.2 (fun hm => (hex _ hm).2.1 rfl)
  refine ⟨?_, ?_⟩
  · rw [ht, hns, List.count_append, List.count_append, hI, hD]
    simpa using hc
  · rw [ht]
    simp only [List.mem_append, not_or]
    exact ⟨he, fun hm => (hex _ hm).2.2 rfl⟩

theorem Lexer.line_balanced (fuel : Nat) (l l' : parse.Lexer) (inp_line : List Char) (h : l.balanced)
    (hr : Lexer.line fuel l inp_line = .ok l') : l'.balanced := by
  unfold Lexer.line at hr
  split at hr
  · cases hr
  · simp only [Except.ok.injEq] at hr
    exact hr ▸ h
  · split at hr
    · cases hr
    · exact ReadLine_balanced _ _ _ _ (SetIndent_balanced _ _ h) hr

theorem Lexer.lines_balanced (fuel : Nat) (l l' : parse.Lexer) (lines : List (List Char))
    (h : l.balanced) (hr : Lexer.lines fuel l lines = .ok l') : l'.balanced := by
  induction lines generalizing l with
  | nil =>
    simp only [Lexer.lines, Except.ok.injEq] at hr
    exact hr ▸ h
  | cons inp_line rest ih =>
    simp only [Lexer.lines] at hr
    split at hr
    · cases hr
    · next l1 h1 => exact ih l1 (Lexer.line_balanced _ _ _ _ h h1) hr

/-- On a stream whose next character is `@` an iteration of `ReadLine` pushes
`Id{""}` and leaves the stream where it was. -/
theorem ReadLine.loop_step_at (n : Nat) (before rest : List Char) (b : Bool) (l : Lexer) :
    ReadLine.loop (n + 1) ⟨before, '@' :: rest, false, false⟩ b l =
      ReadLine.loop n ⟨before, '@' :: rest, false, false⟩ true (l.push_back (Token.Id "")) := by
  simp [ReadLine.loop, IStream.get, IStream.good, isdigit, isprint, ReadSign, IStream.unget,
    ReadId, ReadId.loop, ispunct, isspace]
  rfl

theorem ReadLine.loop_stuck_at (n : Nat) (before rest : List Char) (b : Bool) (l : Lexer) :
    ReadLine.loop n ⟨before, '@' :: rest, false, false⟩ b l = .error Fault.out_of_fuel := by
  induction n generalizing b l with
  | zero => rfl
  | succ n ih => rw [ReadLine.loop_step_at, ih]

theorem find_first_not_of_space_replicate (s : Nat) (c : Char) (rest : List Char) (hc : c ≠ ' ') :
    find_first_not_of_space (List.replicate s ' ' ++ c :: rest) = some s := by
  induction s with
  | zero => simp [find_first_not_of_space, hc]
  | succ s ih => simp [List.replicate_succ, find_first_not_of_space, ih]

theorem find_first_not_of_space_spaces (s : Nat) :
    find_first_not_of_space (List.replicate s ' ') = none := by
  induction s with
  | zero => rfl
  | succ s ih => simp [List.replicate_succ, find_first_not_of_space, ih]

theorem TrimLine_eq (s : Nat) (c : Char) (rest : List Char) (hc : c ≠ ' ') :
    TrimLine (List.replicate s ' ' ++ c :: rest) =
      .ok (if 2 ≤ s then s / 2 else s,
        List.replicate (s - if 2 ≤ s then s / 2 else s) ' ' ++ c :: rest) := by
  have hle : (if 2 ≤ s then s / 2 else s) ≤ s := by
    split <;> omega
  simp only [TrimLine, find_first_not_of_space_replicate s c rest hc]
  congr 2
  · rw [List.drop_append_of_le_length (by simpa using hle)]
    simp

theorem IsEmptyLine_eq (s : Nat) (c : Char) (rest : List Char) (hc : c ≠ ' ') :
    IsEmptyLine (List.replicate s ' ' ++ c :: rest) =
      .ok (c == '#' || (decide (0 < s) && rest.isEmpty)) := by
  have hget : (List.replicate s ' ' ++ c :: rest).get? s = some c := by
    rw [List.get?_eq_getElem?, List.getElem?_append_right (by simp)]
    simp
  have hlen : (s == (List.replicate s ' ' ++ c :: rest).length - 1) = rest.isEmpty := by
    cases rest with
    | nil => simp
    | cons r rs => simp
  simp only [IsEmptyLine, find_first_not_of_space_replicate s c rest hc, hget, hlen]
  simp only [List.length_append, List.length_replicate, List.length_cons]
  rw [if_neg (by omega)]
  by_cases h1 : c = '#'
  · simp [h1]
  · by_cases h2 : 0 < s
    · cases rest <;> simp [h1, h2]
    · simp [h1, h2]

theorem Lexer.line_eq (fuel : Nat) (l : parse.Lexer) (s : Nat) (c : Char) (rest : List Char)
    (hc : c ≠ ' ') (hline : IsEmptyLine (List.replicate s ' ' ++ c :: rest) = .ok false) :
    Lexer.line fuel l (List.replicate s ' ' ++ c :: rest) =
      ReadLine fuel
        (IStream.ofLine (List.replicate (s - if 2 ≤ s then s / 2 else s) ' ' ++ c :: rest))
        (SetIndent l (if 2 ≤ s then s / 2 else s)) := by
  simp only [Lexer.line, hline, TrimLine_eq s c rest hc]

theorem Lexer.line_Newline (fuel : Nat) (l l' : parse.Lexer) (s : Nat) (c : Char)
    (rest : List Char) (hc : c ≠ ' ')
    (hline : IsEmptyLine (List.replicate s ' ' ++ c :: rest) = .ok false)
    (h : Lexer.line fuel l (List.replicate s ' ' ++ c :: rest) = .ok l') :
    ∃ content, l'.tokens_ = (SetIndent l (if 2 ≤ s then s / 2 else s)).tokens_ ++ content ++
        [Token.Newline] ∧ (∀ t ∈ content, Token.isLayout t = false) ∧
      l'.number_spaces = (if 2 ≤ s then s / 2 else s) := by
  rw [Lexer.line_eq fuel l s c rest hc hline] at h
  rcases ReadLine.loop_false _ _ _ _ h with ⟨_, hall⟩ | ⟨content, rfl, hcontent⟩
  · exact absurd (hall rfl c (by simp [IStream.ofLine])) hc
  · exact ⟨content, rfl, hcontent, by rw [SetIndent_eq]⟩

theorem ReadString.loop_closed (d : Char) (n : Nat) (body before rest : List Char) (str : String)
    (hbody : closedBody d body = true) (hn : body.length < n) :
    ReadString.loop n ⟨before, body ++ d :: rest, false, false⟩ d str =
      (⟨d :: body.reverse ++ before, rest, false, false⟩, ⟨str.data ++ literalValue body⟩) := by
  induction n generalizing body before str with
  | zero => omega
  | succ n ih =>
    cases body with
    | nil => simp [ReadString.loop, IStream.get, IStream.good, literalValue]
    | cons c body' =>
      unfold closedBody at hbody
      split at hbody
      · cases hbody
      · next hcd =>
        split at hbody
        · next hbs =>
          cases body' with
          | nil => simp at hbody
          | cons e body'' =>
            simp only at hbody
            simp only [List.length_cons] at hn
            subst hbs
            have := ih body'' (e :: '\\' :: before) (str.push (escapedByte e)) hbody (by omega)
            simp only [ReadString.loop, IStream.get, IStream.good, List.cons_append, hcd,
              Bool.not_false, Bool.and_self, if_true, if_false, Option.getD_some, literalValue]
            simp only [escapedByte] at this
            rw [this]
            simp [String.push, escapedByte]
        · next hbs =>
          simp only [List.length_cons] at hn
          have := ih body' (c :: before) (str.push c) hbody (by omega)
          simp only [ReadString.loop, IStream.get, IStream.good, List.cons_append, hcd, hbs,
            Bool.not_false, Bool.and_self, if_true, if_false, literalValue]
          have hl : literalValue (c :: body') = c :: literalValue body' := by
            conv_lhs => unfold literalValue
            simp [hbs]
          rw [this, hl]
          simp [String.push]

theorem ReadLine.loop_string (d : Char) (body before rest : List Char) (n : Nat) (b : Bool)
    (l : Lexer) (hd : d = '\'' ∨ d = '"') (hbody : closedBody d body = true) :
    ReadLine.loop (n + 1) ⟨before, d :: (body ++ d :: rest), false, false⟩ b l =
      ReadLine.loop n ⟨d :: (body.reverse ++ d :: before), rest, false, false⟩ true
        (l.push_back (Token.String ⟨literalValue body⟩)) := by
  have hloop := ReadString.loop_closed d ((body ++ d :: rest).length + 1) body (d :: before) rest ""
    hbody (by simp; omega)
  have hempty : "".data ++ literalValue body = literalValue body := rfl
  simp only [List.length_append, List.length_cons, hempty] at hloop
  rcases hd with rfl | rfl
  · simp only [ReadLine.loop, IStream.get, IStream.good, Bool.not_false, Bool.and_self, if_true]
    simp [isdigit, isprint, ReadSign, ReadString, hloop]
  · simp only [ReadLine.loop, IStream.get, IStream.good, Bool.not_false, Bool.and_self, if_true]
    simp [isdigit, isprint, ReadSign, ReadString, hloop]

theorem decimalValue_eq_ofDigits (ds : List Char) :
    decimalValue ds = Nat.ofDigits 10 (ds.reverse.map digitValue) := by
  induction ds using List.reverseRecOn with
  | nil => simp [decimalValue]
  | append_singleton ds c ih =>
    unfold decimalValue at ih ⊢
    rw [List.foldl_append, ih]
    simp [Nat.ofDigits_cons, digitValue]
    omega

theorem isdigit_facts (c : Char) (h : isdigit c = true) :
    c ≠ ' ' ∧ c ≠ '#' ∧ c ≠ '-' ∧ c ≠ '+' ∧ isspace c = false := by
  refine ⟨?_, ?_, ?_, ?_, ?_⟩
  · rintro rfl; simp [isdigit] at h
  · rintro rfl; simp [isdigit] at h
  · rintro rfl; simp [isdigit] at h
  · rintro rfl; simp [isdigit] at h
  · simp only [isdigit, Bool.and_eq_true, decide_eq_true_eq] at h
    simp only [isspace, Bool.or_eq_false_iff, beq_eq_false_iff_ne, Bool.and_eq_false_iff,
      decide_eq_false_iff_not]
    omega

theorem IStream.extractInt_digits (ds before rest : List Char) (hds : ds ≠ [])
    (hdig : ∀ c ∈ ds, isdigit c = true) (hmax : ∀ c, rest.head? = some c → isdigit c = false)
    (hrange : decimalValue ds ≤ 2147483647) :
    IStream.extractInt ⟨before, ds ++ rest, false, false⟩ =
      (some (decimalValue ds : Int), ⟨ds.reverse ++ before, rest, rest.isEmpty, false⟩) := by
  have htake : (ds ++ rest).takeWhile isdigit = ds := by
    rw [List.takeWhile_append_of_pos hdig]
    cases rest with
    | nil => simp
    | cons c r => simp [List.takeWhile_cons, hmax c rfl]
  have hdrop : (ds ++ rest).dropWhile isdigit = rest := by
    rw [List.dropWhile_append_of_pos hdig]
    cases rest with
    | nil => simp
    | cons c r => simp [List.dropWhile_cons, hmax c rfl]
  cases ds with
  | nil => exact absurd rfl hds
  | cons d ds' =>
    obtain ⟨_, _, hminus, hplus, hsp⟩ := isdigit_facts d (hdig d (by simp))
    have hv : ¬ ((decimalValue (d :: ds') : Int) > INT_MAX) := by
      simp only [INT_MAX, gt_iff_lt, not_lt]
      exact_mod_cast hrange
    have hv' : ¬ ((decimalValue (d :: ds') : Int) < INT_MIN) := by
      simp only [INT_MIN, not_lt]
      have : (0 : Int) ≤ (decimalValue (d :: ds') : Int) := Int.natCast_nonneg _
      omega
    simp only [List.cons_append] at htake hdrop
    simp only [IStream.extractInt, IStream.good, Bool.not_false, Bool.and_self, if_true,
      List.cons_append, List.takeWhile_cons, List.dropWhile_cons, hsp]
    simp [hminus, hplus, htake, hdrop, hv, hv']

theorem ReadLine.loop_number (ds before rest : List Char) (n : Nat) (b : Bool) (l : Lexer)
    (hds : ds ≠ []) (hdig : ∀ c ∈ ds, isdigit c = true)
    (hmax : ∀ c, rest.head? = some c → isdigit c = false)
    (hrange : decimalValue ds ≤ 2147483647) :
    ReadLine.loop (n + 1) ⟨before, ds ++ rest, false, false⟩ b l =
      ReadLine.loop n ⟨ds.reverse ++ before, rest, rest.isEmpty, false⟩ true
        (l.push_back (Token.Number (decimalValue ds))) := by
  have hex := IStream.extractInt_digits ds before rest hds hdig hmax hrange
  cases ds with
  | nil => exact absurd rfl hds
  | cons d ds' =>
    obtain ⟨hsp, hhash, _, _, _⟩ := isdigit_facts d (hdig d (by simp))
    simp only [List.cons_append] at hex
    simp only [ReadLine.loop, IStream.get, IStream.good, Bool.not_false, Bool.and_self, if_true,
      List.cons_append, hsp, hhash, if_false, hdig d (by simp), ReadNumber, IStream.unget,
      Bool.false_eq_true, hex]

theorem isspace_not_punct (t : Char) (ht : isspace t = true) : ispunct t = false := by
  simp only [isspace, Bool.or_eq_true, beq_iff_eq, Bool.and_eq_true, decide_eq_true_eq] at ht
  simp only [ispunct, Bool.or_eq_false_iff, Bool.and_eq_false_iff, decide_eq_false_iff_not]
  omega

theorem ReadId.loop_word (word : List Char) (t : Char) (n : Nat) (before rest : List Char)
    (s : String) (hword : ∀ c ∈ word, isIdByte c = true) (ht : isspace t = true)
    (hn : word.length < n) :
    ReadId.loop n ⟨before, word ++ t :: rest, false, false⟩ s =
      (⟨t :: (word.reverse ++ before), rest, false, false⟩, ⟨s.data ++ word⟩) := by
  induction word generalizing n before s with
  | nil =>
    cases n with
    | zero => simp at hn
    | succ n => simp [ReadId.loop, IStream.get, IStream.good, ht, isspace_not_punct t ht]
  | cons c word ih =>
    cases n with
    | zero => simp at hn
    | succ n =>
      have hc : ((isspace c || c == ' ') || (ispunct c && c != '_')) = false := by
        have := hword c (by simp)
        simpa only [isIdByte, Bool.not_eq_true'] using this
      have := ih n (c :: before) (s.push c) (fun x hx => hword x (by simp [hx]))
        (by simpa using hn)
      simp only [ReadId.loop, IStream.get, IStream.good, Bool.not_false, Bool.and_self, if_true,
        List.cons_append, hc, Bool.false_eq_true, if_false, this]
      simp [String.push]

theorem isIdStart_ne (c d : Char) (hc : isIdStart c = true) (hd : isIdStart d = false) : c ≠ d := by
  rintro rfl
  rw [hc] at hd
  cases hd

theorem isIdStart_facts (c : Char) (h : isIdStart c = true) :
    isdigit c = false ∧ isprint c = true ∧ isIdByte c = true := by
  have hsp : (c == ' ') = false := by
    simpa using isIdStart_ne c ' ' h (by decide)
  simp only [isIdStart, Bool.or_eq_true, Bool.and_eq_true, decide_eq_true_eq, beq_iff_eq] at h
  rcases h with (h | h) | h
  · have h1 : isspace c = false := by
      simp only [isspace, Bool.or_eq_false_iff, beq_eq_false_iff_ne, Bool.and_eq_false_iff,
        decide_eq_false_iff_not]
      omega
    have h2 : ispunct c = false := by
      simp only [ispunct, Bool.or_eq_false_iff, Bool.and_eq_false_iff, decide_eq_false_iff_not]
      omega
    refine ⟨?_, ?_, by simp [isIdByte, h1, h2, hsp]⟩
    · simp only [isdigit, Bool.and_eq_false_iff, decide_eq_false_iff_not]
      omega
    · simp only [isprint, Bool.and_eq_true, decide_eq_true_eq]
      omega
  · have h1 : isspace c = false := by
      simp only [isspace, Bool.or_eq_false_iff, beq_eq_false_iff_ne, Bool.and_eq_false_iff,
        decide_eq_false_iff_not]
      omega
    have h2 : ispunct c = false := by
      simp only [ispunct, Bool.or_eq_false_iff, Bool.and_eq_false_iff, decide_eq_false_iff_not]
      omega
    refine ⟨?_, ?_, by simp [isIdByte, h1, h2, hsp]⟩
    · simp only [isdigit, Bool.and_eq_false_iff, decide_eq_false_iff_not]
      omega
    · simp only [isprint, Bool.and_eq_true, decide_eq_true_eq]
      omega
  · subst h
    decide

theorem ReadLine.loop_word_tab (c : Char) (word before rest : List Char) (n : Nat) (b : Bool)
    (l : Lexer) (hc : isIdStart c = true) (hword : ∀ x ∈ word, isIdByte x = true) :
    ReadLine.loop (n + 1) ⟨before, c :: (word ++ '\t' :: rest), false, false⟩ b l =
      ReadLine.loop n ⟨'\t' :: (word.reverse ++ c :: before), rest, false, false⟩ true
        (l.push_back (ReadId.token ⟨c :: word⟩)) := by
  obtain ⟨hdig, hprint, hid⟩ := isIdStart_facts c hc
  have ne : ∀ d : Char, isIdStart d = false → c ≠ d := fun d hd => isIdStart_ne c d hc hd
  have hloop := ReadId.loop_word (c :: word) '\t' ((c :: (word ++ '\t' :: rest)).length + 1) before
    rest "" (by
      intro x hx
      rcases List.mem_cons.1 hx with rfl | hx
      · exact hid
      · exact hword x hx) (by decide) (by simp; omega)
  have hempty : "".data ++ c :: word = c :: word := rfl
  simp only [List.length_append, List.length_cons, hempty, List.cons_append, List.reverse_cons,
    List.append_assoc, List.singleton_append, List.nil_append] at hloop
  simp only [ReadLine.loop, IStream.get, IStream.good, Bool.not_false, Bool.and_self, if_true,
    ne ' ' (by decide), ne '#' (by decide), if_false, hdig, Bool.false_eq_true, hprint,
    Bool.true_or, ReadSign, ne '=' (by decide), ne '!' (by decide), ne '<' (by decide),
    ne '>' (by decide), or_self, List.mem_cons, ne '*' (by decide), ne '/' (by decide),
    ne '+' (by decide), ne '-' (by decide), ne '(' (by decide), ne ')' (by decide),
    ne '?' (by decide), ne ',' (by decide), ne '.' (by decide), ne ':' (by decide),
    ne ';' (by decide), ne '\t' (by decide), ne '\n' (by decide), List.mem_nil_iff,
    ne '\'' (by decide), ne '"' (by decide), IStream.unget, ReadId, List.length_cons,
    List.length_append, hloop]

theorem ReadLine.loop_tab (before rest : List Char) (n : Nat) (b : Bool) (l : Lexer) :
    ReadLine.loop (n + 1) ⟨before, '\t' :: rest, false, false⟩ b l =
      ReadLine.loop n ⟨'\t' :: before, rest, false, false⟩ true
        (l.push_back (Token.Char '\t')) := by
  simp [ReadLine.loop, IStream.get, IStream.good, isdigit, isprint, isspace, ReadSign]

theorem IStream.get_after_le (is : IStream) : is.get.2.after.length ≤ is.after.length := by
  unfold IStream.get
  split
  · split
    · simp_all
    · next c rest h => simp [h]
  · exact Nat.le_refl _

theorem IStream.get_some_after (is is1 : IStream) (c : Char) (h : is.get = (some c, is1)) :
    is1.after.length + 1 = is.after.length := by
  unfold IStream.get at h
  split at h
  · split at h
    · cases h
    · next c' rest hafter =>
      simp only [Prod.mk.injEq, Option.some.injEq] at h
      rw [← h.2, hafter]
      simp
  · cases h

/-- The budget that `ReadString` gives its loop is never exhausted: any two
budgets above the number of bytes left give the same result. -/
theorem ReadString.loop_budget (n m : Nat) (is : IStream) (d : Char) (str : String)
    (hn : is.after.length < n) (hm : is.after.length < m) :
    ReadString.loop n is d str = ReadString.loop m is d str := by
  induction n generalizing m is str with
  | zero => omega
  | succ n ih =>
    cases m with
    | zero => omega
    | succ m =>
      simp only [ReadString.loop]
      split
      · rfl
      · next ch is1 h =>
        have h1 := IStream.get_some_after is is1 ch h
        split
        · rfl
        · split
          · have h2 := IStream.get_after_le is1
            exact ih m _ _ (by omega) (by omega)
          · exact ih m _ _ (by omega) (by omega)

/-- The budget that `ReadId` gives its loop is never exhausted. -/
theorem ReadId.loop_enough (n m : Nat) (is : IStream) (s : String)
    (hn : is.after.length < n) (hm : is.after.length < m) :
    ReadId.loop n is s = ReadId.loop m is s := by
  induction n generalizing m is s with
  | zero => omega
  | succ n ih =>
    cases m with
    | zero => omega
    | succ m =>
      simp only [ReadId.loop]
      split
      · rfl
      · next c is1 h =>
        have h1 := IStream.get_some_after is is1 c h
        split
        · rfl
        · exact ih m _ _ (by omega) (by omega)

theorem ReadString.loop_leaves_suffix (n : Nat) (is : IStream) (d : Char) (str : String) :
    (ReadString.loop n is d str).1.after <:+ is.after := by
  induction n generalizing is str with
  | zero => exact List.suffix_refl _
  | succ n ih =>
    have hget : ∀ (s : IStream), s.get.2.after <:+ s.after := by
      intro s
      unfold IStream.get
      split
      · split
        · simp_all
        · next c rest h => simp [h]
      · exact List.suffix_refl _
    simp only [ReadString.loop]
    split
    · next is1 h =>
      have := hget is
      rw [h] at this
      exact this
    · next ch is1 h =>
      have h1 := hget is
      rw [h] at h1
      simp only at h1
      split
      · exact h1
      · split
        · exact (ih _ _).trans ((hget is1).trans h1)
        · exact (ih is1 _).trans h1

theorem ReadId.loop_leaves_tail (n : Nat) (is : IStream) (s : String) :
    (ReadId.loop n is s).1.after <:+ is.after := by
  induction n generalizing is s with
  | zero => exact List.suffix_refl _
  | succ n ih =>
    simp only [ReadId.loop]
    split
    · next is1 h =>
      unfold IStream.get at h
      split at h
      · split at h
        · simp only [Prod.mk.injEq] at h
          rw [← h.2]
        · cases h
      · simp only [Prod.mk.injEq] at h
        rw [← h.2]
    · next c is1 h =>
      unfold IStream.get at h
      split at h
      · split at h
        · cases h
        · next c' rest hafter =>
          simp only [Prod.mk.injEq, Option.some.injEq] at h
          obtain ⟨rfl, rfl⟩ := h
          split
          · split
            · simp [IStream.unget, hafter]
              split <;> simp [hafter]
            · simp [hafter]
          · refine (ih _ _).trans ?_
            simp [hafter]
      · cases h



theorem ReadNumber_after (ch : Char) (before tail : List Char) (l : Lexer)
    (hd : isdigit ch = true) :
    ∃ is2 d, ReadNumber ⟨ch :: before, tail, false, false⟩ l =
        .ok (is2, l.push_back (Token.Number d)) ∧ is2.after <:+ tail := by
  obtain ⟨_, _, hminus, hplus, hsp⟩ := isdigit_facts ch hd
  have hsigned : (ch == '-' || ch == '+') = false := by simp [hminus, hplus]
  simp only [ReadNumber, IStream.unget, Bool.false_eq_true, if_false, IStream.extractInt,
    IStream.good, Bool.not_false, Bool.and_self, if_true, List.dropWhile_cons, hsp, hsigned]
  refine ⟨_, _, rfl, ?_⟩
  simp only [List.dropWhile_cons, hd, if_true]
  exact List.dropWhile_suffix _

theorem ReadId.loop_succ (n : Nat) (is : IStream) (s : String) :
    ReadId.loop (n + 1) is s =
      match is.get with
      | (none, is) => (is, s)
      | (some c, is) =>
        if (isspace c || c == ' ') || (ispunct c && c != '_') then
          if ispunct c && c != '_' then (is.unget, s) else (is, s)
        else ReadId.loop n is (s.push c) := rfl

theorem ReadSign_after (ch : Char) (before tail : List Char) (l : Lexer)
    (hstray : isStray ch = false) (hhash : ch ≠ '#') :
    (ReadSign ⟨ch :: before, tail, false, false⟩ ch l).1.after <:+ tail := by
  unfold ReadSign
  split
  · simp only [IStream.peek, IStream.good, Bool.not_false, Bool.and_self, if_true]
    cases tail with
    | nil => simp
    | cons t tail' =>
      simp only
      split
      · simp [IStream.get, IStream.good]
      · exact List.suffix_refl _
  · next h1 =>
    split
    · exact List.suffix_refl _
    · next h2 =>
      split
      · simp only [ReadString]
        exact ReadString.loop_leaves_suffix _ _ _ _
      · next h3 =>
        simp only [ReadId, IStream.unget, Bool.false_eq_true, if_false, List.length_cons]
        rw [ReadId.loop_succ]
        simp only [IStream.get, IStream.good, Bool.not_false, Bool.and_self, if_true]
        split
        · next hstop =>
          split
          · next hp =>
            exfalso
            simp only [Bool.and_eq_true, bne_iff_ne, ne_eq] at hp
            simp only [not_or] at h1 h3
            simp only [List.mem_cons, List.mem_nil_iff, or_false, not_or] at h2
            have : isStray ch = true := by
              simp [isStray, hp.1, hp.2, hhash, h1, h2, h3]
            rw [this] at hstray
            cases hstray
          · exact List.suffix_refl _
        · exact ReadId.loop_leaves_tail _ _ _

/-- On a stream that holds no stray punctuation `ReadLine` returns once its
budget exceeds the number of bytes left. -/
theorem ReadLine.loop_returns (n : Nat) (is : IStream) (b : Bool) (l : Lexer)
    (hstray : ∀ c ∈ is.after, isStray c = false) (hn : is.after.length < n) :
    ∃ l', ReadLine.loop n is b l = .ok l' := by
  induction n generalizing is b l with
  | zero => omega
  | succ n ih =>
    simp only [ReadLine.loop]
    split
    · exact ⟨_, rfl⟩
    · next ch is1 hget =>
      have hshape : is = ⟨is.before, ch :: is1.after, false, false⟩ ∧
          is1 = ⟨ch :: is.before, is1.after, false, false⟩ := by
        obtain ⟨bf, af, e, f⟩ := is
        simp only [IStream.get, IStream.good] at hget
        split at hget
        · next hg =>
          split at hget
          · cases hget
          · next c rest =>
            simp only [Prod.mk.injEq, Option.some.injEq] at hget
            obtain ⟨rfl, rfl⟩ := hget
            simp only [Bool.and_eq_true, Bool.not_eq_eq_eq_not, Bool.not_true] at hg
            simp [hg.1, hg.2]
        · cases hget
      obtain ⟨hs, hs1⟩ := hshape
      have hafter : is.after = ch :: is1.after := by rw [hs]
      have hlen : is1.after.length < n := by
        rw [hafter] at hn
        simpa using hn
      have htail : ∀ c ∈ is1.after, isStray c = false := fun c hc =>
        hstray c (by rw [hafter]; exact List.mem_cons_of_mem _ hc)
      have hsuffix : ∀ is2 : IStream, is2.after <:+ is1.after →
          (∀ c ∈ is2.after, isStray c = false) ∧ is2.after.length < n := fun is2 h =>
        ⟨fun c hc => htail c (h.subset hc), lt_of_le_of_lt h.length_le hlen⟩
      split
      · exact ih is1 b l htail hlen
      · split
        · exact ⟨_, rfl⟩
        · next hhash =>
          split
          · next hd =>
            rw [hs1]
            obtain ⟨is2, d, hnum, hsuf⟩ := ReadNumber_after ch is.before is1.after l hd
            rw [hnum]
            exact ih is2 true _ (hsuffix is2 hsuf).1 (hsuffix is2 hsuf).2
          · split
            · have hsuf := ReadSign_after ch is.before is1.after l
                (hstray ch (by rw [hafter]; exact List.mem_cons_self _ _)) hhash
              rw [← hs1] at hsuf
              exact ih _ true _ (hsuffix _ hsuf).1 (hsuffix _ hsuf).2
            · exact ih is1 true l htail hlen



theorem exists_leading_spaces (line : List Char) (h : ∃ c ∈ line, c ≠ ' ') :
    ∃ s c rest, c ≠ ' ' ∧ line = List.replicate s ' ' ++ c :: rest := by
  induction line with
  | nil =>
    obtain ⟨c, hc, _⟩ := h
    cases hc
  | cons a line ih =>
    by_cases ha : a = ' '
    · obtain ⟨c, hc, hne⟩ := h
      have hmem : c ∈ line := by
        rcases List.mem_cons.1 hc with rfl | hc
        · exact absurd ha hne
        · exact hc
      obtain ⟨s, c', rest, hc', hline⟩ := ih ⟨c, hmem, hne⟩
      exact ⟨s + 1, c', rest, hc', by rw [hline, ha, List.replicate_succ, List.cons_append]⟩
    · exact ⟨0, a, line, ha, by simp⟩

/-- On a line that holds no stray punctuation and is not made of spaces only,
one iteration of the constructor's loop returns once the budget exceeds the
length of the line. -/
theorem Lexer.line_returns (fuel : Nat) (l : parse.Lexer) (line : List Char)
    (hstray : ∀ c ∈ line, isStray c = false) (hspaces : line = [] ∨ ∃ c ∈ line, c ≠ ' ')
    (hfuel : line.length < fuel) :
    ∃ l', Lexer.line fuel l line = .ok l' := by
  rcases hspaces with rfl | hne
  · exact ⟨l, rfl⟩
  · obtain ⟨s, c, rest, hc, rfl⟩ := exists_leading_spaces line hne
    cases hline : (c == '#' || (decide (0 < s) && rest.isEmpty)) with
    | true =>
      refine ⟨l, ?_⟩
      simp only [Lexer.line, IsEmptyLine_eq s c rest hc, hline]
    | false =>
      have hempty : IsEmptyLine (List.replicate s ' ' ++ c :: rest) = .ok false := by
        rw [IsEmptyLine_eq s c rest hc, hline]
      rw [Lexer.line_eq fuel l s c rest hc hempty]
      apply ReadLine.loop_returns
      · intro x hx
        apply hstray x
        simp only [IStream.ofLine, List.mem_append, List.mem_replicate, List.mem_cons] at hx ⊢
        rcases hx with ⟨_, rfl⟩ | hx
        · by_cases hs : s = 0
          · subst hs
            simp at *
          · exact Or.inl ⟨hs, rfl⟩
        · exact Or.inr hx
      · simp only [IStream.ofLine, List.length_append, List.length_replicate, List.length_cons]
          at hfuel ⊢
        omega

theorem Lexer.lines_returns (fuel : Nat) (l : parse.Lexer) (lines : List (List Char))
    (h : ∀ line ∈ lines, (∀ c ∈ line, isStray c = false) ∧
      (line = [] ∨ ∃ c ∈ line, c ≠ ' ') ∧ line.length < fuel) :
    ∃ l', Lexer.lines fuel l lines = .ok l' := by
  induction lines generalizing l with
  | nil => exact ⟨l, rfl⟩
  | cons line rest ih =>
    obtain ⟨h1, h2, h3⟩ := h line (List.mem_cons_self _ _)
    obtain ⟨l1, hl1⟩ := Lexer.line_returns fuel l line h1 h2 h3
    obtain ⟨l2, hl2⟩ := ih l1 (fun x hx => h x (List.mem_cons_of_mem _ hx))
    exact ⟨l2, by simp only [Lexer.lines, hl1, hl2]⟩

/-- The constructor returns on every input whose lines hold no stray
punctuation and are not made of spaces only, once the budget exceeds the
length of every line. -/
theorem Lexer_returns (fuel : Nat) (input : List Char)
    (h : ∀ line ∈ getlines input, (∀ c ∈ line, isStray c = false) ∧
      (line = [] ∨ ∃ c ∈ line, c ≠ ' ') ∧ line.length < fuel) :
    ∃ l, Lexer.Lexer fuel input = .ok ((SetIndent l 0).push_back Token.Eof).tokens_ := by
  obtain ⟨l, hl⟩ := Lexer.lines_returns fuel Lexer.init (getlines input) h
  exact ⟨l, by simp only [Lexer.Lexer, hl]⟩

end parse

/-! # Lemmas about the executor -/

namespace ast

open runtime

theorem Compound.loop_append_raises (exec : Executor) (before after : List Statement)
    (statement : Statement) (closure c : Closure) (context x : Context) (o : Outcome)
    (hb : Compound.loop exec before closure context = returns none c x)
    (hs : exec statement c x = o) (ho : ∀ v, o.result ≠ .ok v) :
    Compound.loop exec (before ++ statement :: after) closure context = o := by
  induction before generalizing closure context with
  | nil =>
    simp [Compound.loop, returns] at hb
    obtain ⟨rfl, rfl⟩ := hb
    simp only [List.nil_append, Compound.loop, hs]
    cases hr : o.result with
    | error e => rfl
    | ok v => exact absurd hr (ho v)
  | cons s rest ih =>
    simp only [List.cons_append, Compound.loop] at hb ⊢
    cases hr : (exec s closure context).result with
    | error e =>
      rw [hr] at hb
      simp [returns] at hb
      rw [hb] at hr
      simp at hr
    | ok v =>
      rw [hr] at hb
      simp only [] at hb ⊢
      exact ih _ _ hb

/-- A `Return e` at a position that execution reaches ends the execution of
the statement around it by the `throw` of the value of `e`. -/
theorem Exec_fill_Return (nest : Nest) (fuel : Nat) (e : Statement)
    (closure closure' closure'' : Closure) (context context' context'' : Context)
    (v : ObjectHolder)
    (hreach : nest.reaches (fuel + 1) closure context closure' context')
    (he : Exec fuel e closure' context' = returns v closure'' context'') :
    Exec (fuel + 1 + nest.depth) (nest.fill (.Return e)) closure context =
      raises (.thrown v) closure'' context'' := by
  induction nest generalizing closure context with
  | here =>
    obtain ⟨rfl, rfl⟩ := hreach
    simp [Nest.depth, Nest.fill, Exec, Execute, he, returns]
  | compound before inner after ih =>
    obtain ⟨c, x, hb, hin⟩ := hreach
    have := ih c x hin
    simp only [Nest.depth, Nest.fill]
    show Execute (Exec (fuel + 1 + inner.depth)) _ (.Compound _) closure context = _
    simp only [Execute]
    exact Compound.loop_append_raises _ _ _ _ _ _ _ _ _ hb this (by simp [raises])
  | if_body cond inner els ih =>
    obtain ⟨v', c, x, hc, ht, hin⟩ := hreach
    have := ih c x hin
    simp only [Nest.depth, Nest.fill]
    show Execute (Exec (fuel + 1 + inner.depth)) _ (.IfElse _ _ _) closure context = _
    simp [Execute, hc, returns, ht, this]
  | else_body cond thn inner ih =>
    obtain ⟨v', c, x, hc, ht, hin⟩ := hreach
    have := ih c x hin
    simp only [Nest.depth, Nest.fill]
    show Execute (Exec (fuel + 1 + inner.depth)) _ (.IfElse _ _ _) closure context = _
    simp [Execute, hc, returns, ht, this]

/-- The quotient of the truncating division has the sign of the product of
the operands, or is zero. -/
theorem tdiv_mul_nonneg (a b : Int) : 0 ≤ Int.tdiv a b * (a * b) := by
  rcases Int.le_total 0 a with ha | ha <;> rcases Int.le_total 0 b with hb | hb
  · exact Int.mul_nonneg (Int.tdiv_nonneg ha hb) (Int.mul_nonneg ha hb)
  · have h1 := Int.tdiv_nonpos ha hb
    have h2 : a * b ≤ 0 := Int.mul_nonpos_of_nonneg_of_nonpos ha hb
    exact Int.mul_nonneg_of_nonpos_of_nonpos h1 h2
  · have h1 : (Int.tdiv a b) ≤ 0 := by
      have := Int.tdiv_nonneg (a := -a) (b := b) (by omega) hb
      rw [Int.neg_tdiv] at this
      omega
    have h2 : a * b ≤ 0 := Int.mul_nonpos_of_nonpos_of_nonneg ha hb
    exact Int.mul_nonneg_of_nonpos_of_nonpos h1 h2
  · have h1 : 0 ≤ Int.tdiv a b := by
      have := Int.tdiv_nonneg (a := -a) (b := -b) (by omega) (by omega)
      rwa [Int.neg_tdiv_neg] at this
    exact Int.mul_nonneg h1 (Int.mul_nonneg_of_nonpos_of_nonpos ha hb)

/-- The quotient of a value of the type of a `Number` by a divisor other than
0 is a value of the type, unless the least value is divided by -1. -/
theorem tdiv_in_range (a b : Int) (ha : Number.min ≤ a ∧ a ≤ Number.max) (hb : b ≠ 0)
    (h : ¬ (a = Number.min ∧ b = -1)) :
    Number.min ≤ Int.tdiv a b ∧ Int.tdiv a b ≤ Number.max := by
  simp only [Number.min, Number.max] at ha h ⊢
  have hq : (Int.tdiv a b).natAbs = a.natAbs / b.natAbs := Int.natAbs_tdiv a b
  by_cases h1 : b = 1
  · subst h1
    rw [Int.tdiv_one]
    exact ha
  · by_cases h2 : b = -1
    · subst h2
      have : Int.tdiv a (-1) = -a := by
        rw [Int.tdiv_neg, Int.tdiv_one]
      rw [this]
      have hne : a ≠ -9223372036854775808 := fun e => h ⟨e, rfl⟩
      omega
    · have hb2 : 2 ≤ b.natAbs := by omega
      have hle : a.natAbs / b.natAbs ≤ a.natAbs / 2 :=
        Nat.div_le_div_left hb2 (by decide)
      omega


/-- The least value of the type of a `Number` divided by -1 is not a value of
the type. -/
theorem tdiv_min_overflows : ¬ (Number.min ≤ Int.tdiv Number.min (-1) ∧
    Int.tdiv Number.min (-1) ≤ Number.max) := by
  have : Int.tdiv Number.min (-1) = -Number.min := by
    rw [Int.tdiv_neg, Int.tdiv_one]
  rw [this]
  simp only [Number.min, Number.max]
  omega

/-- The result of an operator that the type can hold. -/
theorem Number.result_of_in_range (value : Int)
    (h : Number.min ≤ value ∧ value ≤ Number.max) : Number.result value = .ok value := by
  simp only [Number.result, h, and_self, if_true]

/-- The result of an operator that the type cannot hold. -/
theorem Number.result_of_overflow (value : Int)
    (h : ¬ (Number.min ≤ value ∧ value ≤ Number.max)) :
    Number.result value = .error .undefined := by
  simp only [Number.result, h, if_false]

/-- What `Sub`, `Mult` and `Div` do with two numbers. -/
theorem arithmetic_of_numbers (exec : Executor) (lhs rhs : Statement) (what : String)
    (op : Int → Int → Except Abrupt Int) (closure c1 c2 : Closure) (context x1 x2 : Context)
    (a b : Int) (hl : exec lhs closure context = returns (some (.Number a)) c1 x1)
    (hr : exec rhs c1 x1 = returns (some (.Number b)) c2 x2) :
    arithmetic exec (some lhs) (some rhs) what op closure context =
      match op a b with
      | .ok value => returns (some (.Number value)) c2 x2
      | .error e => raises e c2 x2 := by
  simp only [arithmetic, hl, hr, returns]

/-- What `Sub`, `Mult` and `Div` do when an operand is not a number. -/
theorem arithmetic_of_illegal (exec : Executor) (lhs rhs : Statement) (what : String)
    (op : Int → Int → Except Abrupt Int) (closure c1 c2 : Closure) (context x1 x2 : Context)
    (vl vr : ObjectHolder) (hl : exec lhs closure context = returns vl c1 x1)
    (hr : exec rhs c1 x1 = returns vr c2 x2)
    (h : (∀ a, vl ≠ some (.Number a)) ∨ (∀ b, vr ≠ some (.Number b))) :
    arithmetic exec (some lhs) (some rhs) what op closure context =
      raises (.runtime_error what) c2 x2 := by
  rcases vl with _ | (a | a | a | a | a) <;> rcases vr with _ | (b | b | b | b | b) <;>
    first
    | (simp only [arithmetic, hl, hr, returns]; done)
    | simp at h

end ast

/-! # The claims -/

namespace runtime

/-- Claim C1 (the code departs from the claim).  Let `A` declare the method
`f`, let `B` extend `A` and `C` extend `B`, neither declaring a method.  The
chain of `C` declares `f`, and the lookup along the chain that the claim
describes finds it; `B.GetMethod` finds it too; but `C.GetMethod` returns
null, because the constructor copies the parent's own `methods_` and not the
parent's table. -/
theorem GetMethod_misses_grandparent (f : Method) :
    (Class.mk "A" [f] none).GetMethod f.name = some f ∧
    (Class.mk "B" [] (some (Class.mk "A" [f] none))).GetMethod f.name = some f ∧
    (Class.mk "C" [] (some (Class.mk "B" [] (some (Class.mk "A" [f] none))))).mostDerived
      f.name = some f ∧
    (Class.mk "C" [] (some (Class.mk "B" [] (some (Class.mk "A" [f] none))))).GetMethod
      f.name = none := by
  simp [Class.GetMethod, Class.name_to_method_, Class.insertMethods, Class.parent_,
    Class.methods_, Map.assign, Map.find, Class.mostDerived]

end runtime

namespace ast

open runtime

/-- Claim C2.  Let a `Return e` node stand at any position inside nested
`Compound` and `IfElse` nodes, and let execution of the body reach that
position (`Nest.reaches`) with `closure'` and `context'`, where `e` evaluates
to `v` and leaves `closure''` and `context''`.  Then `MethodBody(body)`
returns `v` as a normal result, and the closure and the context are those the
evaluation of `e` left: nothing that follows the `Return` has run. -/
theorem MethodBody_delivers_nested_Return (nest : Nest) (fuel : Nat) (e : Statement)
    (closure closure' closure'' : Closure) (context context' context'' : Context)
    (v : ObjectHolder)
    (hreach : nest.reaches (fuel + 1) closure context closure' context')
    (he : Exec fuel e closure' context' = returns v closure'' context'') :
    Exec (fuel + 1 + nest.depth + 1) (.MethodBody (nest.fill (.Return e))) closure context =
      returns v closure'' context'' := by
  show Execute (Exec (fuel + 1 + nest.depth)) _ (.MethodBody _) closure context = _
  simp [Execute, Exec_fill_Return nest fuel e closure closure' closure'' context context'
    context'' v hreach he, raises, returns]

/-- Claim C2, the scenario: the body `if x > 0: return 1` followed by
`return 2` yields `Number(1)` for `x = 5` and `Number(2)` for `x = 0`, and
leaves the closure and the (empty) output as they were. -/
theorem MethodBody_delivers_nested_Return_witness :
    Exec 5
        (.MethodBody (.Compound
          [.IfElse (.Comparison .Greater (.VariableValue ["x"]) (.ValueStatement (.Number 0)))
            (.Return (.ValueStatement (.Number 1))) none,
           .Return (.ValueStatement (.Number 2))]))
        [("x", some (.Number 5))] ⟨"", []⟩ =
      returns (some (.Number 1)) [("x", some (.Number 5))] ⟨"", []⟩ ∧
    Exec 5
        (.MethodBody (.Compound
          [.IfElse (.Comparison .Greater (.VariableValue ["x"]) (.ValueStatement (.Number 0)))
            (.Return (.ValueStatement (.Number 1))) none,
           .Return (.ValueStatement (.Number 2))]))
        [("x", some (.Number 0))] ⟨"", []⟩ =
      returns (some (.Number 2)) [("x", some (.Number 0))] ⟨"", []⟩ :=
  ⟨MethodBody_delivers_nested_Return
      (.compound []
        (.if_body (.Comparison .Greater (.VariableValue ["x"]) (.ValueStatement (.Number 0)))
          .here none)
        [.Return (.ValueStatement (.Number 2))])
      1 (.ValueStatement (.Number 1))
      [("x", some (.Number 5))] [("x", some (.Number 5))] [("x", some (.Number 5))]
      ⟨"", []⟩ ⟨"", []⟩ ⟨"", []⟩ (some (.Number 1))
      ⟨_, _, rfl, _, _, _, rfl, rfl, rfl, rfl⟩ rfl,
   MethodBody_delivers_nested_Return
      (.compound
        [.IfElse (.Comparison .Greater (.VariableValue ["x"]) (.ValueStatement (.Number 0)))
          (.Return (.ValueStatement (.Number 1))) none]
        .here [])
      2 (.ValueStatement (.Number 2))
      [("x", some (.Number 0))] [("x", some (.Number 0))] [("x", some (.Number 0))]
      ⟨"", []⟩ ⟨"", []⟩ ⟨"", []⟩ (some (.Number 2))
      ⟨_, _, rfl, rfl, rfl⟩ rfl⟩

end ast

namespace parse

/-- Claim C3 (as amended).  Let a line that the lexer does not skip have `s`
leading spaces before its first other byte `c`.  `TrimLine` takes as level
`s / 2` when `s ≥ 2` and `s` itself when `s < 2`, and strips that many bytes;
`SetIndent` pushes `level - prev` `Indent` tokens and then `prev - level`
`Dedent` tokens (natural subtraction) and stores the level; the tokens of the
line are read after that, and none of them is an `Indent`, `Dedent` or
`Eof`. -/
theorem Lexer_line_emits_indentation (fuel : Nat) (l : Lexer) (s : Nat) (c : Char)
    (rest : List Char) (level : Nat) (hc : c ≠ ' ')
    (hline : IsEmptyLine (List.replicate s ' ' ++ c :: rest) = .ok false)
    (hlevel : level = if 2 ≤ s then s / 2 else s) :
    TrimLine (List.replicate s ' ' ++ c :: rest) =
      .ok (level, List.replicate (s - level) ' ' ++ c :: rest) ∧
    SetIndent l level =
      { tokens_ := l.tokens_ ++ List.replicate (level - l.number_spaces) Token.Indent ++
          List.replicate (l.number_spaces - level) Token.Dedent,
        number_spaces := level } ∧
    Lexer.line fuel l (List.replicate s ' ' ++ c :: rest) =
      ReadLine fuel (IStream.ofLine (List.replicate (s - level) ' ' ++ c :: rest))
        (SetIndent l level) ∧
    ∀ l', Lexer.line fuel l (List.replicate s ' ' ++ c :: rest) = .ok l' →
      l'.number_spaces = level ∧
      ∃ content, l'.tokens_ = (SetIndent l level).tokens_ ++ content ∧
        ∀ t ∈ content, t ≠ Token.Indent ∧ t ≠ Token.Dedent ∧ t ≠ Token.Eof := by
  subst hlevel
  refine ⟨TrimLine_eq s c rest hc, SetIndent_eq _ _, Lexer.line_eq fuel l s c rest hc hline, ?_⟩
  intro l' h
  rw [Lexer.line_eq fuel l s c rest hc hline] at h
  obtain ⟨hns, extra, ht, hex⟩ := ReadLine_appends _ _ _ _ h
  refine ⟨?_, extra, ht, hex⟩
  rw [hns, SetIndent_eq]

/-- Claim C3, the scenario: the second line of scenario 1, two spaces deep
after a line at level 0, gets one `Indent` before its tokens; and the whole
input of scenario 1 yields the listed token sequence. -/
theorem Lexer_line_emits_indentation_witness :
    Lexer.line 16 ⟨[Token.If, Token.Id "x", Token.Char ':', Token.Newline], 0⟩
        "  print 1".toList =
      .ok ⟨[Token.If, Token.Id "x", Token.Char ':', Token.Newline, Token.Indent, Token.Print,
        Token.Number 1, Token.Newline], 1⟩ ∧
    Lexer.Lexer 16 "if x:\n  print 1\n  print 2\nprint 3\n".toList =
      .ok [Token.If, Token.Id "x", Token.Char ':', Token.Newline, Token.Indent, Token.Print,
        Token.Number 1, Token.Newline, Token.Print, Token.Number 2, Token.Newline, Token.Dedent,
        Token.Print, Token.Number 3, Token.Newline, Token.Eof] :=
  ⟨(Lexer_line_emits_indentation 16 ⟨[Token.If, Token.Id "x", Token.Char ':', Token.Newline], 0⟩
      2 'p' "rint 1".toList 1 (by decide) rfl rfl).2.2.1.trans rfl, rfl⟩

/-- Claim C3 as stated fails for one leading space: the line ` xy` at the
start of the input has `s = 1`; the claim gives level `1 / 2 = 0` and no
token before `Id{xy}`, the lexer takes level 1 and pushes an `Indent`. -/
theorem one_leading_space_is_one_level :
    Lexer.line 16 Lexer.init " xy".toList =
      .ok ⟨[Token.Indent, Token.Id "xy", Token.Newline], 1⟩ ∧
    Lexer.init.tokens_ ++ List.replicate (1 / 2 - Lexer.init.number_spaces) Token.Indent ++
      List.replicate (Lexer.init.number_spaces - 1 / 2) Token.Dedent = [] :=
  ⟨rfl, rfl⟩

/-- Claim C4.  Whenever the lexer finishes, the token vector holds as many
`Indent` as `Dedent` tokens, its last token is `Eof`, and no token before the
last is `Eof`. -/
theorem Lexer_indents_balanced_and_single_Eof (fuel : Nat) (input : List Char)
    (tokens : List Token) (h : Lexer.Lexer fuel input = .ok tokens) :
    tokens.count Token.Indent = tokens.count Token.Dedent ∧
    tokens.getLast? = some Token.Eof ∧ Token.Eof ∉ tokens.dropLast := by
  unfold Lexer.Lexer at h
  split at h
  · cases h
  · next l hl =>
    simp only [Except.ok.injEq] at h
    have hb : (SetIndent l 0).balanced :=
      SetIndent_balanced _ _
        (Lexer.lines_balanced fuel _ _ _ ⟨by simp [Lexer.init], by simp [Lexer.init]⟩ hl)
    have hns : (SetIndent l 0).number_spaces = 0 := by rw [SetIndent_eq]
    obtain ⟨hc, he⟩ := hb
    subst h
    refine ⟨?_, ?_, ?_⟩
    · simp only [Lexer.push_back, List.count_append]
      rw [hc, hns]
      simp
    · simp [Lexer.push_back]
    · simpa [Lexer.push_back] using he

/-- Claim C4 at a concrete input: the lexer finishes on an `if` with an
indented body that the input leaves open, and the `Indent` is matched by the
`Dedent` flushed at the end. -/
theorem Lexer_indents_balanced_and_single_Eof_witness :
    Lexer.Lexer 16 "if x:\n  print 1\n".toList =
      .ok [Token.If, Token.Id "x", Token.Char ':', Token.Newline, Token.Indent, Token.Print,
        Token.Number 1, Token.Newline, Token.Dedent, Token.Eof] ∧
    [Token.If, Token.Id "x", Token.Char ':', Token.Newline, Token.Indent, Token.Print,
        Token.Number 1, Token.Newline, Token.Dedent, Token.Eof].count Token.Indent =
      [Token.If, Token.Id "x", Token.Char ':', Token.Newline, Token.Indent, Token.Print,
        Token.Number 1, Token.Newline, Token.Dedent, Token.Eof].count Token.Dedent :=
  ⟨rfl, (Lexer_indents_balanced_and_single_Eof 16 "if x:\n  print 1\n".toList _ rfl).1⟩

/-- Claim C5 (the code departs from the claim).  What `IsEmptyLine` answers on
every line: on `s` spaces followed by a byte `c` other than a space and by
`rest`, it answers "empty" exactly when `c` is `#`, or `s > 0` and `rest` is
empty; on a line of spaces only it reads outside the line; on the blank line
it answers "empty".  So the line ` x`, which is not blank, not made of spaces
and not a comment, is skipped: after `if a:` it contributes no token. -/
theorem IsEmptyLine_skips_single_byte_after_spaces :
    (∀ (s : Nat) (c : Char) (rest : List Char), c ≠ ' ' →
      IsEmptyLine (List.replicate s ' ' ++ c :: rest) =
        .ok (c == '#' || (decide (0 < s) && rest.isEmpty))) ∧
    (∀ s : Nat, IsEmptyLine (List.replicate (s + 1) ' ') = .error Fault.undefined) ∧
    IsEmptyLine [] = .ok true ∧
    IsEmptyLine " x".toList = .ok true ∧
    Lexer.Lexer 16 "if a:\n x\n".toList =
      .ok [Token.If, Token.Id "a", Token.Char ':', Token.Newline, Token.Eof] := by
  refine ⟨IsEmptyLine_eq, ?_, rfl, rfl, rfl⟩
  intro s
  simp only [IsEmptyLine, find_first_not_of_space_spaces]
  simp

/-- Claim C6 (the code departs from the claim).  The constructor returns a
token vector that ends in `Eof` on every input whose lines hold no stray
punctuation byte (`isStray`) and are not made of spaces only, once the budget
exceeds the length of every line.  But on the input `@` it never finishes:
whatever the budget, `ReadLine` exhausts it.  Each iteration reads the `@`,
`ReadSign` and `ReadId` put it back, an `Id{""}` is pushed, and the next
iteration reads the same byte. -/
theorem Lexer_never_finishes_on_at_sign :
    (∀ (fuel : Nat) (input : List Char),
      (∀ line ∈ getlines input, (∀ c ∈ line, isStray c = false) ∧
        (line = [] ∨ ∃ c ∈ line, c ≠ ' ') ∧ line.length < fuel) →
      ∃ tokens, Lexer.Lexer fuel input = .ok tokens ∧ tokens.getLast? = some Token.Eof) ∧
    (∀ fuel : Nat, Lexer.Lexer fuel ['@'] = .error Fault.out_of_fuel) := by
  refine ⟨?_, ?_⟩
  · intro fuel input h
    obtain ⟨l, hl⟩ := Lexer_returns fuel input h
    exact ⟨_, hl, by simp [Lexer.push_back]⟩
  · intro fuel
    have h : Lexer.line fuel Lexer.init ['@'] = .error Fault.out_of_fuel := by
      simp only [Lexer.line, IsEmptyLine, TrimLine, find_first_not_of_space]
      simp [ReadLine, IStream.ofLine, ReadLine.loop_stuck_at]
    simp [Lexer.Lexer, getlines, getlines.go, Lexer.lines, h]

/-- Claim C7 (the code departs from the claim).  Whenever the lexer finishes
a line that it does not skip, the tokens it pushed for the line end in a
`Newline`, and no other token of the line is a `Newline`; and it does finish
such a line, with a budget above the length of the line, when the line holds
no stray punctuation byte (`isStray`).  But on the line `x @` it never
finishes, whatever the budget, so that no `Newline` is pushed for that
line. -/
theorem Lexer_line_Newline_unless_stuck :
    (∀ (fuel : Nat) (l l' : Lexer) (s : Nat) (c : Char) (rest : List Char), c ≠ ' ' →
      IsEmptyLine (List.replicate s ' ' ++ c :: rest) = .ok false →
      Lexer.line fuel l (List.replicate s ' ' ++ c :: rest) = .ok l' →
      ∃ content, l'.tokens_ =
          (SetIndent l (if 2 ≤ s then s / 2 else s)).tokens_ ++ content ++ [Token.Newline] ∧
        Token.Newline ∉ content) ∧
    (∀ (l : Lexer) (s : Nat) (c : Char) (rest : List Char), c ≠ ' ' →
      IsEmptyLine (List.replicate s ' ' ++ c :: rest) = .ok false →
      (∀ x ∈ List.replicate s ' ' ++ c :: rest, isStray x = false) →
      ∃ l' content,
        Lexer.line ((List.replicate s ' ' ++ c :: rest).length + 1) l
          (List.replicate s ' ' ++ c :: rest) = .ok l' ∧
        l'.tokens_ =
          (SetIndent l (if 2 ≤ s then s / 2 else s)).tokens_ ++ content ++ [Token.Newline] ∧
        Token.Newline ∉ content) ∧
    (∀ (fuel : Nat) (l : Lexer), Lexer.line fuel l "x @".toList = .error Fault.out_of_fuel) := by
  have key : ∀ (fuel : Nat) (l l' : Lexer) (s : Nat) (c : Char) (rest : List Char), c ≠ ' ' →
      IsEmptyLine (List.replicate s ' ' ++ c :: rest) = .ok false →
      Lexer.line fuel l (List.replicate s ' ' ++ c :: rest) = .ok l' →
      ∃ content, l'.tokens_ =
          (SetIndent l (if 2 ≤ s then s / 2 else s)).tokens_ ++ content ++ [Token.Newline] ∧
        Token.Newline ∉ content := by
    intro fuel l l' s c rest hc hline h
    obtain ⟨content, ht, hcontent, _⟩ := Lexer.line_Newline fuel l l' s c rest hc hline h
    exact ⟨content, ht, fun hm => by simpa [Token.isLayout] using hcontent _ hm⟩
  refine ⟨key, ?_, ?_⟩
  · intro l s c rest hc hline hstray
    obtain ⟨l', hl'⟩ := Lexer.line_returns ((List.replicate s ' ' ++ c :: rest).length + 1) l _
      hstray (Or.inr ⟨c, by simp, hc⟩) (Nat.lt_succ_self _)
    obtain ⟨content, ht, hn⟩ := key _ l l' s c rest hc hline hl'
    exact ⟨l', content, hl', ht, hn⟩
  · intro fuel l
    have h1 : Lexer.line fuel l "x @".toList =
        ReadLine.loop fuel (IStream.ofLine "x @".toList) false (SetIndent l 0) := rfl
    rw [h1]
    cases fuel with
    | zero => rfl
    | succ n =>
      have h2 : ReadLine.loop (n + 1) (IStream.ofLine "x @".toList) false (SetIndent l 0) =
          ReadLine.loop n ⟨[' ', 'x'], ['@'], false, false⟩ true
            ((SetIndent l 0).push_back (Token.Id "x")) := rfl
      rw [h2, ReadLine.loop_stuck_at]

/-- Claim C8.  When `ReadLine` reads a quote `d` (`'` or `"`) that opens a
literal whose body is closed by the next unescaped `d`, it pushes
`String(v)`, where `v` is the body with every escape sequence replaced as the
specification says and every other byte (the other quote and `#` included)
copied, and goes on with the byte after the closing quote. -/
theorem ReadLine_pushes_String_of_closed_literal (d : Char) (body before rest : List Char)
    (n : Nat) (b : Bool) (l : Lexer) (hd : d = '\'' ∨ d = '"')
    (hbody : closedBody d body = true) :
    ReadLine.loop (n + 1) ⟨before, d :: (body ++ d :: rest), false, false⟩ b l =
      ReadLine.loop n ⟨d :: (body.reverse ++ d :: before), rest, false, false⟩ true
        (l.push_back (Token.String ⟨literalValue body⟩)) :=
  ReadLine.loop_string d body before rest n b l hd hbody

/-- Claim C8, the scenario: the source text `"a\n b"` (with a backslash and
an `n`) lexes to `String{a<newline> b}`; so does it as a whole input; an
escaped quote does not close the literal, and the other quote and `#` are
copied. -/
theorem ReadLine_pushes_String_of_closed_literal_witness :
    ReadLine 8 (IStream.ofLine "\"a\\n b\"".toList) Lexer.init =
      .ok ⟨[Token.String "a\n b", Token.Newline], 0⟩ ∧
    Lexer.Lexer 8 "\"a\\n b\"".toList = .ok [Token.String "a\n b", Token.Newline, Token.Eof] ∧
    ReadLine 8 (IStream.ofLine "'it\\'s \"#\"' x".toList) Lexer.init =
      .ok ⟨[Token.String "it's \"#\"", Token.Id "x", Token.Newline], 0⟩ :=
  ⟨(ReadLine_pushes_String_of_closed_literal '"' "a\\n b".toList [] [] 7 false Lexer.init
      (Or.inr rfl) rfl).trans rfl,
   rfl,
   (ReadLine_pushes_String_of_closed_literal '\'' "it\\'s \"#\"".toList [] " x".toList 7 false
      Lexer.init (Or.inl rfl) rfl).trans rfl⟩

/-- Claim C9 (as amended).  When `ReadLine` reads the first of a maximal run
of decimal digits whose value is at most 2147483647, the largest `int`, it
pushes `Number(v)`, where `v` is the integer the run denotes, and goes on with
the byte after the run. -/
theorem ReadLine_pushes_Number_within_int_range (ds before rest : List Char) (n : Nat)
    (b : Bool) (l : Lexer) (hds : ds ≠ []) (hdig : ∀ c ∈ ds, isdigit c = true)
    (hmax : ∀ c, rest.head? = some c → isdigit c = false)
    (hrange : (Nat.ofDigits 10 (ds.reverse.map digitValue) : Nat) ≤ 2147483647) :
    ReadLine.loop (n + 1) ⟨before, ds ++ rest, false, false⟩ b l =
      ReadLine.loop n ⟨ds.reverse ++ before, rest, rest.isEmpty, false⟩ true
        (l.push_back (Token.Number ((Nat.ofDigits 10 (ds.reverse.map digitValue) : Nat) : Int))) := by
  have hv := decimalValue_eq_ofDigits ds
  rw [← hv] at hrange
  rw [← hv]
  exact ReadLine.loop_number ds before rest n b l hds hdig hmax hrange

/-- Claim C9 at a concrete input: the run `42` before ` x`. -/
theorem ReadLine_pushes_Number_within_int_range_witness :
    (Nat.ofDigits 10 ("42".toList.reverse.map digitValue) : Nat) = 42 ∧
    ReadLine 8 (IStream.ofLine "42 x".toList) Lexer.init =
      .ok ⟨[Token.Number 42, Token.Id "x", Token.Newline], 0⟩ :=
  ⟨by decide,
   (ReadLine_pushes_Number_within_int_range "42".toList [] " x".toList 7 false Lexer.init
      (by decide) (by decide) (by decide) (by decide)).trans rfl⟩

/-- Claim C9 as stated fails above the range of `int`: the run `3000000000`
denotes a value that a 64-bit payload holds, but the token is
`Number{2147483647}`, and the `x` after the run is not lexed. -/
theorem Number_clamped_above_INT_MAX :
    (Nat.ofDigits 10 ("3000000000".toList.reverse.map digitValue) : Nat) = 3000000000 ∧
    (3000000000 : Int) ≤ 9223372036854775807 ∧
    Lexer.Lexer 16 "3000000000 x".toList =
      .ok [Token.Number 2147483647, Token.Newline, Token.Eof] :=
  ⟨by decide, by decide, rfl⟩

/-- Claim C10 (as amended).  A tab that `ReadLine` reads, that is a tab at
the place where a token may start (after spaces, a number, a punctuation
token, a string literal or another tab), produces `Char{'\t'}`.  A tab right
after the bytes of an identifier or keyword is read by `ReadId` as the end of
the word and produces no token: the word's token is pushed and lexing goes on
after the tab. -/
theorem ReadLine_tab_token_unless_after_word (before rest : List Char) (n : Nat) (b : Bool)
    (l : Lexer) (c : Char) (word : List Char) (hc : isIdStart c = true)
    (hword : ∀ x ∈ word, isIdByte x = true) :
    ReadLine.loop (n + 1) ⟨before, '\t' :: rest, false, false⟩ b l =
      ReadLine.loop n ⟨'\t' :: before, rest, false, false⟩ true
        (l.push_back (Token.Char '\t')) ∧
    ReadLine.loop (n + 1) ⟨before, c :: (word ++ '\t' :: rest), false, false⟩ b l =
      ReadLine.loop n ⟨'\t' :: (word.reverse ++ c :: before), rest, false, false⟩ true
        (l.push_back (ReadId.token ⟨c :: word⟩)) :=
  ⟨ReadLine.loop_tab before rest n b l, ReadLine.loop_word_tab c word before rest n b l hc hword⟩

/-- Claim C10 at concrete inputs: a tab before a word and a tab after a
number are tokens; a tab after a word is not. -/
theorem ReadLine_tab_token_unless_after_word_witness :
    ReadLine 8 (IStream.ofLine "\tx1 2\t3".toList) Lexer.init =
      .ok ⟨[Token.Char '\t', Token.Id "x1", Token.Number 2, Token.Char '\t', Token.Number 3,
        Token.Newline], 0⟩ ∧
    ReadLine 8 (IStream.ofLine "if\tx".toList) Lexer.init =
      .ok ⟨[Token.If, Token.Id "x", Token.Newline], 0⟩ :=
  ⟨(ReadLine_tab_token_unless_after_word [] "x1 2\t3".toList 7 false Lexer.init 'i' ['f'] rfl
      (by decide)).1.trans rfl,
   (ReadLine_tab_token_unless_after_word [] "x".toList 7 false Lexer.init 'i' ['f'] rfl
      (by decide)).2.trans rfl⟩

/-- Claim C10 as stated fails after an identifier: the line `x<tab>y` holds a
tab outside any string literal and comment, and its tokens hold no
`Char{'\t'}`. -/
theorem tab_after_identifier_is_dropped :
    Lexer.Lexer 16 "x\ty".toList =
      .ok [Token.Id "x", Token.Id "y", Token.Newline, Token.Eof] ∧
    Token.Char '\t' ∉ [Token.Id "x", Token.Id "y", Token.Newline, Token.Eof] :=
  ⟨rfl, by decide⟩

end parse

namespace ast

open runtime

/-- Claim C11 (amended).  For the instance at `self`: `HasMethod(name, argc)`
is true iff `GetMethod` finds a method of that name for the class of the
instance and the number of its formal parameters is `argc`.  When
`HasMethod(name, |args|)` is false, `Call` raises the runtime error
"Not implemented" and executes nothing.  When it is true, `Call` executes the
body of the method and its result, a value or whatever the body raises, is
that of the body; the scope of the body is a fresh one in which `self` was
bound to the instance and then each formal parameter to the argument at its
position.  When the formal parameters are pairwise distinct and none is
called `self`, that scope holds exactly `self`, bound to the instance, and
each formal parameter, bound to the argument at the same position. -/
theorem Call_runs_body_iff_HasMethod (exec : Executor) (self : Nat) (inst : ClassInstance)
    (method : String) (actual_args : List ObjectHolder) (context : Context)
    (hinst : context.heap.get? self = some inst) :
    (inst.HasMethod method actual_args.length = true ↔
      ∃ m, inst.cls_.GetMethod method = some m ∧
        m.formal_params.length = actual_args.length) ∧
    (inst.HasMethod method actual_args.length = false →
      Call exec self method actual_args context =
        (.error (.runtime_error "Not implemented"), context)) ∧
    (∀ m, inst.cls_.GetMethod method = some m →
      m.formal_params.length = actual_args.length →
      Call exec self method actual_args context =
        ((exec m.body (Call.bind [("self", some (.ClassInstance self))] m.formal_params
            actual_args) context).result,
          (exec m.body (Call.bind [("self", some (.ClassInstance self))] m.formal_params
            actual_args) context).context) ∧
      (m.formal_params.Nodup → "self" ∉ m.formal_params →
        Call.bind [("self", some (.ClassInstance self))] m.formal_params actual_args =
          ("self", some (.ClassInstance self)) :: List.zip m.formal_params actual_args)) := by
  refine ⟨?_, ?_, ?_⟩
  · unfold ClassInstance.HasMethod
    cases hm : inst.cls_.GetMethod method with
    | none => simp
    | some m => simp
  · intro h
    simp only [Call, hinst, h, Bool.not_false, if_true]
  · intro m hm hlen
    refine ⟨Call_of_GetMethod exec self inst method actual_args context m hinst hm hlen, ?_⟩
    intro hnodup hself
    refine Call.bind_fresh _ _ _ hlen hnodup ?_
    intro p hp
    have hne : ¬ "self" = p := fun h => hself (h ▸ hp)
    simp [Map.find, hne]


/-- Claim C11, an instance of the amended statement: the method `f(x)` with
the body `return x`, called with `7`, returns `7`; called without argument it
raises "Not implemented". -/
theorem Call_runs_body_iff_HasMethod_witness :
    (Context.mk "" [⟨Class.mk "A" [Method.mk "f" ["x"]
        (.MethodBody (.Return (.VariableValue ["x"])))] none, []⟩]).heap.get? 0 =
      some ⟨Class.mk "A" [Method.mk "f" ["x"]
        (.MethodBody (.Return (.VariableValue ["x"])))] none, []⟩ ∧
    Call (Exec 3) 0 "f" [some (.Number 7)]
        ⟨"", [⟨Class.mk "A" [Method.mk "f" ["x"]
          (.MethodBody (.Return (.VariableValue ["x"])))] none, []⟩]⟩ =
      (.ok (some (.Number 7)),
        ⟨"", [⟨Class.mk "A" [Method.mk "f" ["x"]
          (.MethodBody (.Return (.VariableValue ["x"])))] none, []⟩]⟩) ∧
    Call (Exec 3) 0 "f" []
        ⟨"", [⟨Class.mk "A" [Method.mk "f" ["x"]
          (.MethodBody (.Return (.VariableValue ["x"])))] none, []⟩]⟩ =
      (.error (.runtime_error "Not implemented"),
        ⟨"", [⟨Class.mk "A" [Method.mk "f" ["x"]
          (.MethodBody (.Return (.VariableValue ["x"])))] none, []⟩]⟩) :=
  ⟨rfl,
    ((Call_runs_body_iff_HasMethod (Exec 3) 0
      ⟨Class.mk "A" [Method.mk "f" ["x"] (.MethodBody (.Return (.VariableValue ["x"])))] none, []⟩
      "f" [some (.Number 7)]
      ⟨"", [⟨Class.mk "A" [Method.mk "f" ["x"]
        (.MethodBody (.Return (.VariableValue ["x"])))] none, []⟩]⟩ rfl).2.2
      (Method.mk "f" ["x"] (.MethodBody (.Return (.VariableValue ["x"])))) rfl rfl).1.trans rfl,
    (Call_runs_body_iff_HasMethod (Exec 3) 0
      ⟨Class.mk "A" [Method.mk "f" ["x"] (.MethodBody (.Return (.VariableValue ["x"])))] none, []⟩
      "f" []
      ⟨"", [⟨Class.mk "A" [Method.mk "f" ["x"]
        (.MethodBody (.Return (.VariableValue ["x"])))] none, []⟩]⟩ rfl).2.1 rfl⟩

/-- Claim C11, the inputs on which the claim as written fails.  The method
`f()` with the body `return y` exists and has no parameter, so `HasMethod` is
true, yet the call raises a runtime error, the one of the body ("Unknown
name").  The method `g(self)` called with `7` runs in a scope whose only
binding is `self`, bound to `7` and not to the instance: the call returns
`7`. -/
theorem Call_passes_on_error_and_rebinds_self :
    (ClassInstance.mk (Class.mk "A" [Method.mk "f" []
        (.MethodBody (.Return (.VariableValue ["y"])))] none) []).HasMethod "f" 0 = true ∧
    Call (Exec 3) 0 "f" []
        ⟨"", [⟨Class.mk "A" [Method.mk "f" []
          (.MethodBody (.Return (.VariableValue ["y"])))] none, []⟩]⟩ =
      (.error (.runtime_error "Unknown name"),
        ⟨"", [⟨Class.mk "A" [Method.mk "f" []
          (.MethodBody (.Return (.VariableValue ["y"])))] none, []⟩]⟩) ∧
    (ClassInstance.mk (Class.mk "A" [Method.mk "g" ["self"]
        (.MethodBody (.Return (.VariableValue ["self"])))] none) []).HasMethod "g" 1 = true ∧
    Call.bind (Map.assign [] "self" (some (.ClassInstance 0))) ["self"] [some (.Number 7)] =
      [("self", some (.Number 7))] ∧
    Call (Exec 3) 0 "g" [some (.Number 7)]
        ⟨"", [⟨Class.mk "A" [Method.mk "g" ["self"]
          (.MethodBody (.Return (.VariableValue ["self"])))] none, []⟩]⟩ =
      (.ok (some (.Number 7)),
        ⟨"", [⟨Class.mk "A" [Method.mk "g" ["self"]
          (.MethodBody (.Return (.VariableValue ["self"])))] none, []⟩]⟩) :=
  ⟨rfl, rfl, rfl, rfl, rfl⟩

/-- Claim C12.  Let the class `C` have the parent `P`, let `own` be the
definition of a name that `C` declares (the last one, should `C` declare the
name more than once) and let `P` declare a method `inherited` of the same
name, whatever the number of its parameters.  Then `P.GetMethod` finds a
definition declared in `P`, `C.GetMethod` finds `own`, and a call of the name
on an instance of `C`, with as many arguments as `own` has formal parameters,
executes the body of `own` in the scope that `Call` builds. -/
theorem Call_dispatches_to_own_definition (exec : Executor) (self : Nat) (name_ : String)
    (before after : List Method) (own inherited : Method) (parent : runtime.Class) (fields_ : Closure)
    (actual_args : List ObjectHolder) (context : Context)
    (hown : ∀ m ∈ after, m.name ≠ own.name)
    (hparent : inherited ∈ parent.methods_) (hname : inherited.name = own.name)
    (hinst : context.heap.get? self =
      some ⟨Class.mk name_ (before ++ own :: after) (some parent), fields_⟩)
    (hargs : own.formal_params.length = actual_args.length) :
    (∃ p ∈ parent.methods_, parent.GetMethod own.name = some p) ∧
    (Class.mk name_ (before ++ own :: after) (some parent)).GetMethod own.name = some own ∧
    Call exec self own.name actual_args context =
      ((exec own.body (Call.bind [("self", some (.ClassInstance self))] own.formal_params
          actual_args) context).result,
        (exec own.body (Call.bind [("self", some (.ClassInstance self))] own.formal_params
          actual_args) context).context) := by
  refine ⟨?_, Class.GetMethod_own name_ before after own _ hown, ?_⟩
  · exact Class.find_insertMethods_mem _ _ own.name ⟨inherited, hparent, hname⟩
  · exact Call_of_GetMethod exec self _ own.name actual_args context own hinst
      (Class.GetMethod_own name_ before after own _ hown) hargs

/-- Claim C12, the scenario: `B` extends `A` and overrides `__str__` to return
`"b"`.  The call of `__str__` on an instance of `B` returns `"b"`, and
`print B()` outputs `b` followed by a newline. -/
theorem Call_dispatches_to_own_definition_witness :
    Call (Exec 3) 0 "__str__" []
        ⟨"", [⟨Class.mk "B" [Method.mk "__str__" []
            (.MethodBody (.Return (.ValueStatement (.String "b"))))]
          (some (Class.mk "A" [Method.mk "__str__" []
            (.MethodBody (.Return (.ValueStatement (.String "a"))))] none)), []⟩]⟩ =
      (.ok (some (.String "b")),
        ⟨"", [⟨Class.mk "B" [Method.mk "__str__" []
            (.MethodBody (.Return (.ValueStatement (.String "b"))))]
          (some (Class.mk "A" [Method.mk "__str__" []
            (.MethodBody (.Return (.ValueStatement (.String "a"))))] none)), []⟩]⟩) ∧
    (Exec 6 (.Print [.NewInstance (Class.mk "B" [Method.mk "__str__" []
            (.MethodBody (.Return (.ValueStatement (.String "b"))))]
          (some (Class.mk "A" [Method.mk "__str__" []
            (.MethodBody (.Return (.ValueStatement (.String "a"))))] none))) []])
        [] ⟨"", []⟩).context.output = "b\n" :=
  ⟨(Call_dispatches_to_own_definition (Exec 3) 0 "B" [] []
      (Method.mk "__str__" [] (.MethodBody (.Return (.ValueStatement (.String "b")))))
      (Method.mk "__str__" [] (.MethodBody (.Return (.ValueStatement (.String "a")))))
      (Class.mk "A" [Method.mk "__str__" []
        (.MethodBody (.Return (.ValueStatement (.String "a"))))] none) [] []
      ⟨"", [⟨Class.mk "B" [Method.mk "__str__" []
            (.MethodBody (.Return (.ValueStatement (.String "b"))))]
          (some (Class.mk "A" [Method.mk "__str__" []
            (.MethodBody (.Return (.ValueStatement (.String "a"))))] none)), []⟩]⟩
      (fun _ h => absurd h (List.not_mem_nil _)) (List.mem_cons_self _ _) rfl rfl rfl).2.2.trans
      rfl,
    rfl⟩

/-- Claim C13.  `Equal(a, b)` returns whether the values are equal when `a`
and `b` are both `Number`, both `String` or both `Bool`, and true when both
are null.  When `a` is an instance whose class defines `__eq__` with one
parameter, `Equal` returns the `Bool` that `a.__eq__(b)` returns, with the
context the call left, and passes on what the call raises.  In every other
case (the operands are not of one of these three kinds together, not both
null, and `a` is not such an instance) it raises the runtime error "Cannot
compare objects for equality" and leaves the context as it was. -/
theorem Equal_by_kind_of_operands (exec : Executor) (context : Context) :
    (∀ a b : Int, Equal exec (some (.Number a)) (some (.Number b)) context =
      (.ok (decide (a = b)), context)) ∧
    (∀ s t : String, Equal exec (some (.String s)) (some (.String t)) context =
      (.ok (decide (s = t)), context)) ∧
    (∀ p q : Bool, Equal exec (some (.Bool p)) (some (.Bool q)) context =
      (.ok (decide (p = q)), context)) ∧
    Equal exec none none context = (.ok true, context) ∧
    (∀ self inst b, context.heap.get? self = some inst → inst.HasMethod "__eq__" 1 = true →
      (∀ v x, Call exec self "__eq__" [b] context = (.ok (some (.Bool v)), x) →
        Equal exec (some (.ClassInstance self)) b context = (.ok v, x)) ∧
      (∀ e x, Call exec self "__eq__" [b] context = (.error e, x) →
        Equal exec (some (.ClassInstance self)) b context = (.error e, x))) ∧
    (∀ a b : ObjectHolder,
      (∀ x y, ¬ (a = some (.Number x) ∧ b = some (.Number y))) →
      (∀ x y, ¬ (a = some (.String x) ∧ b = some (.String y))) →
      (∀ x y, ¬ (a = some (.Bool x) ∧ b = some (.Bool y))) →
      ¬ (a = none ∧ b = none) →
      (∀ self inst, a = some (.ClassInstance self) → context.heap.get? self = some inst →
        inst.HasMethod "__eq__" 1 = false) →
      Equal exec a b context =
        (.error (.runtime_error "Cannot compare objects for equality"), context)) := by
  refine ⟨fun _ _ => rfl, fun _ _ => rfl, fun _ _ => rfl, rfl, ?_, ?_⟩
  · intro self inst b hinst hhas
    have hh := holderHasMethod_eq_some context self inst "__eq__" 1 hinst hhas
    have hE : Equal exec (some (.ClassInstance self)) b context =
        callBool exec self "__eq__" b context := by
      cases b <;> simp only [Equal, hh]
    constructor
    · intro v x hcall
      rw [hE]; simp only [callBool, hcall]
    · intro e x hcall
      rw [hE]; simp only [callBool, hcall]
  · intro a b hn hs hb hnone hinst
    have hh := holderHasMethod_eq_none context a "__eq__" 1 hinst
    rcases a with _ | (x | x | x | x | x) <;> rcases b with _ | (y | y | y | y | y) <;>
      first
      | (simp only [Equal, hh]; done)
      | (simp at hn; done)
      | (simp at hs; done)
      | (simp at hb; done)
      | simp at hnone

/-- Claim C13 on an instance: the class `E` defines `__eq__(other)` to return
`False`, so `Equal` of an instance of `E` and the number `1` returns false;
a number against a string raises. -/
theorem Equal_by_kind_of_operands_witness :
    Equal (Exec 3) (some (.ClassInstance 0)) (some (.Number 1))
        ⟨"", [⟨Class.mk "E" [Method.mk "__eq__" ["other"]
          (.MethodBody (.Return (.ValueStatement (.Bool false))))] none, []⟩]⟩ =
      (.ok false,
        ⟨"", [⟨Class.mk "E" [Method.mk "__eq__" ["other"]
          (.MethodBody (.Return (.ValueStatement (.Bool false))))] none, []⟩]⟩) ∧
    Equal (Exec 3) (some (.Number 1)) (some (.String "1")) ⟨"", []⟩ =
      (.error (.runtime_error "Cannot compare objects for equality"), ⟨"", []⟩) :=
  ⟨((Equal_by_kind_of_operands (Exec 3)
      ⟨"", [⟨Class.mk "E" [Method.mk "__eq__" ["other"]
        (.MethodBody (.Return (.ValueStatement (.Bool false))))] none, []⟩]⟩).2.2.2.2.1 0
      ⟨Class.mk "E" [Method.mk "__eq__" ["other"]
        (.MethodBody (.Return (.ValueStatement (.Bool false))))] none, []⟩
      (some (.Number 1)) rfl rfl).1 false _ rfl,
    (Equal_by_kind_of_operands (Exec 3) ⟨"", []⟩).2.2.2.2.2 (some (.Number 1))
      (some (.String "1")) (by simp) (by simp) (by simp) (by simp) (by simp)⟩

/-- Claim C14 (amended).  `Equal(a, a)` returns true for every `Number`,
`String` and `Bool` `a` and for the null holder.  For an instance whose class
defines `__eq__` with one parameter it returns the `Bool` that `a.__eq__(a)`
returns, whatever that is. -/
theorem Equal_self_of_value (exec : Executor) (context : Context) :
    (∀ a : Int, Equal exec (some (.Number a)) (some (.Number a)) context = (.ok true, context)) ∧
    (∀ s : String, Equal exec (some (.String s)) (some (.String s)) context =
      (.ok true, context)) ∧
    (∀ p : Bool, Equal exec (some (.Bool p)) (some (.Bool p)) context = (.ok true, context)) ∧
    Equal exec none none context = (.ok true, context) ∧
    (∀ self inst, context.heap.get? self = some inst → inst.HasMethod "__eq__" 1 = true →
      ∀ v x, Call exec self "__eq__" [some (.ClassInstance self)] context =
          (.ok (some (.Bool v)), x) →
        Equal exec (some (.ClassInstance self)) (some (.ClassInstance self)) context =
          (.ok v, x)) := by
  refine ⟨fun a => ?_, fun s => ?_, fun p => ?_, rfl, ?_⟩
  · simp [Equal]
  · simp [Equal]
  · simp [Equal]
  · intro self inst hinst hhas v x hcall
    have hh := holderHasMethod_eq_some context self inst "__eq__" 1 hinst hhas
    simp only [Equal, hh, callBool, hcall]

/-- Claim C14, the input on which the claim as written fails: the class `E`
defines `__eq__(other)` to return `False`; for an instance `a` of `E`,
`Equal(a, a)` raises nothing and returns false. -/
theorem Equal_self_false_by_own_eq :
    Equal (Exec 3) (some (.ClassInstance 0)) (some (.ClassInstance 0))
        ⟨"", [⟨Class.mk "E" [Method.mk "__eq__" ["other"]
          (.MethodBody (.Return (.ValueStatement (.Bool false))))] none, []⟩]⟩ =
      (.ok false,
        ⟨"", [⟨Class.mk "E" [Method.mk "__eq__" ["other"]
          (.MethodBody (.Return (.ValueStatement (.Bool false))))] none, []⟩]⟩) :=
  rfl

/-- Claim C15.  On two `Number`s the six comparisons return what the order
of the integers says, on two `String`s what the lexicographic order of the
bytes says (`lexLess`), on two `Bool`s what the order with false below true
says (`Bool.toNat`: false is 0, true is 1); none of them raises or changes
the context.  In each of the three cases exactly one of less, equal and
greater holds, so exactly one of `Less`, `Equal` and `Greater` returns
true. -/
theorem comparisons_agree_with_order (exec : Executor) (context : Context) :
    (∀ a b : Int,
      Less exec (some (.Number a)) (some (.Number b)) context = (.ok (decide (a < b)), context) ∧
      Equal exec (some (.Number a)) (some (.Number b)) context =
        (.ok (decide (a = b)), context) ∧
      NotEqual exec (some (.Number a)) (some (.Number b)) context =
        (.ok (decide (a ≠ b)), context) ∧
      Greater exec (some (.Number a)) (some (.Number b)) context =
        (.ok (decide (a > b)), context) ∧
      LessOrEqual exec (some (.Number a)) (some (.Number b)) context =
        (.ok (decide (a ≤ b)), context) ∧
      GreaterOrEqual exec (some (.Number a)) (some (.Number b)) context =
        (.ok (decide (a ≥ b)), context) ∧
      ((a < b ∧ ¬ a = b ∧ ¬ a > b) ∨ (¬ a < b ∧ a = b ∧ ¬ a > b) ∨
        (¬ a < b ∧ ¬ a = b ∧ a > b))) ∧
    (∀ s t : String,
      Less exec (some (.String s)) (some (.String t)) context =
        (.ok (decide (lexLess s t)), context) ∧
      Equal exec (some (.String s)) (some (.String t)) context =
        (.ok (decide (s = t)), context) ∧
      NotEqual exec (some (.String s)) (some (.String t)) context =
        (.ok (decide (s ≠ t)), context) ∧
      Greater exec (some (.String s)) (some (.String t)) context =
        (.ok (decide (lexLess t s)), context) ∧
      LessOrEqual exec (some (.String s)) (some (.String t)) context =
        (.ok (decide (lexLess s t ∨ s = t)), context) ∧
      GreaterOrEqual exec (some (.String s)) (some (.String t)) context =
        (.ok (decide (lexLess t s ∨ s = t)), context) ∧
      ((lexLess s t ∧ ¬ s = t ∧ ¬ lexLess t s) ∨ (¬ lexLess s t ∧ s = t ∧ ¬ lexLess t s) ∨
        (¬ lexLess s t ∧ ¬ s = t ∧ lexLess t s))) ∧
    (∀ p q : Bool,
      Less exec (some (.Bool p)) (some (.Bool q)) context =
        (.ok (decide (p.toNat < q.toNat)), context) ∧
      Equal exec (some (.Bool p)) (some (.Bool q)) context = (.ok (decide (p = q)), context) ∧
      NotEqual exec (some (.Bool p)) (some (.Bool q)) context =
        (.ok (decide (p ≠ q)), context) ∧
      Greater exec (some (.Bool p)) (some (.Bool q)) context =
        (.ok (decide (p.toNat > q.toNat)), context) ∧
      LessOrEqual exec (some (.Bool p)) (some (.Bool q)) context =
        (.ok (decide (p.toNat ≤ q.toNat)), context) ∧
      GreaterOrEqual exec (some (.Bool p)) (some (.Bool q)) context =
        (.ok (decide (p.toNat ≥ q.toNat)), context) ∧
      ((p.toNat < q.toNat ∧ ¬ p = q ∧ ¬ p.toNat > q.toNat) ∨
        (¬ p.toNat < q.toNat ∧ p = q ∧ ¬ p.toNat > q.toNat) ∨
        (¬ p.toNat < q.toNat ∧ ¬ p = q ∧ p.toNat > q.toNat))) := by
  refine ⟨fun a b => ?_, fun s t => ?_, fun p q => ?_⟩
  · refine ⟨rfl, rfl, ?_, ?_, ?_, ?_, ?_⟩
    · by_cases h : a = b <;> simp [NotEqual, Equal, h]
    · by_cases h : a < b
      · have h2 : ¬ b < a := by omega
        simp [Greater, Less, Equal, h, h2]
      · by_cases h3 : a = b
        · simp [Greater, Less, Equal, h3]
        · have h4 : b < a := by omega
          simp [Greater, Less, Equal, h, h3, h4]
    · by_cases h : a < b
      · have h2 : a ≤ b := by omega
        simp [LessOrEqual, Greater, Less, Equal, h, h2]
      · by_cases h3 : a = b
        · simp [LessOrEqual, Greater, Less, Equal, h3]
        · have h4 : ¬ a ≤ b := by omega
          simp [LessOrEqual, Greater, Less, Equal, h, h3, h4]
    · by_cases h : a < b
      · have h2 : ¬ b ≤ a := by omega
        simp [GreaterOrEqual, Less, h, h2]
      · have h2 : b ≤ a := by omega
        simp [GreaterOrEqual, Less, h, h2]
    · omega
  · have hL : stringLess s.data t.data = decide (lexLess s t) :=
      Bool.eq_decide_of_iff _ _ (stringLess_iff_Lex s.data t.data)
    have hG : stringLess t.data s.data = decide (lexLess t s) :=
      Bool.eq_decide_of_iff _ _ (stringLess_iff_Lex t.data s.data)
    have hne : s ≠ t → s.data ≠ t.data := fun h hd => h (String.ext hd)
    by_cases hst : s = t
    · subst hst
      have hirr := stringLess_irrefl s.data
      have hl : ¬ lexLess s s := by
        intro h; rw [hL] at hirr; simp [h] at hirr
      refine ⟨?_, ?_, ?_, ?_, ?_, ?_, ?_⟩ <;>
        simp [Less, Equal, NotEqual, Greater, LessOrEqual, GreaterOrEqual, hirr, hl]
    · by_cases hlt : stringLess s.data t.data = true
      · have hasym := stringLess_asymm _ _ hlt
        have h1 : lexLess s t := by rw [hL] at hlt; simpa using hlt
        have h2 : ¬ lexLess t s := by
          intro h; rw [hG] at hasym; simp [h] at hasym
        refine ⟨?_, ?_, ?_, ?_, ?_, ?_, ?_⟩ <;>
          simp [Less, Equal, NotEqual, Greater, LessOrEqual, GreaterOrEqual, hlt, hst, h1, h2]
      · have hlt : stringLess s.data t.data = false := by simpa using hlt
        have htot := stringLess_total _ _ hlt (hne hst)
        have h1 : ¬ lexLess s t := by
          intro h; rw [hL] at hlt; simp [h] at hlt
        have h2 : lexLess t s := by rw [hG] at htot; simpa using htot
        refine ⟨?_, ?_, ?_, ?_, ?_, ?_, ?_⟩ <;>
          simp [Less, Equal, NotEqual, Greater, LessOrEqual, GreaterOrEqual, hlt, hst, h1, h2]
  · cases p <;> cases q <;>
      simp [Less, Equal, NotEqual, Greater, LessOrEqual, GreaterOrEqual]

/-- Claim C16.  `IsTrue` is a total function (it has no way to raise): it is
`n ≠ 0` on `Number(n)`, "`s` is not empty" on `String(s)`, `b` on `Bool(b)`,
and false on the null holder, on a `Class` and on a `ClassInstance`. -/
theorem IsTrue_total (n : Int) (s : String) (b : Bool) (cls : runtime.Class) (addr : Nat) :
    IsTrue (some (.Number n)) = decide (n ≠ 0) ∧
    IsTrue (some (.String s)) = decide (s ≠ "") ∧
    IsTrue (some (.Bool b)) = b ∧
    IsTrue none = false ∧
    IsTrue (some (.Class cls)) = false ∧
    IsTrue (some (.ClassInstance addr)) = false := by
  refine ⟨?_, ?_, ?_, rfl, rfl, rfl⟩
  · by_cases h : n = 0 <;> simp [IsTrue, h]
  · by_cases h : s = ""
    · subst h; rfl
    · have hd : s.data ≠ [] := fun hd => h (String.ext hd)
      cases hs : s.data with
      | nil => exact absurd hs hd
      | cons c cs => simp [IsTrue, hs, h]
  · simp [IsTrue]

/-- Claim C17 (the code departs from the claim).  Let `a` be an instance with
the fields `b` and `c`, let `a.b` have the field `c` and `a.b.c` the field `d`
with the value 1, and let `a.c` have the field `d` with the value 2.
Following the path `a.b.c.d` as the claim describes reaches 1
(`VariableValue.reached`), but `VariableValue::Execute` returns 2: its loop
looks every middle identifier up in the fields of the first instance.  When
`a` has no field `c`, it raises "Accessing a non-existent field" for the same
path, which the claim's lookup follows to 1.  For the path `a.b.c` with a
number in `a.b`, the claim asks for an error; the code dereferences a null
pointer.  For one identifier the code returns the binding of the scope and
raises exactly when there is none; for two it agrees with the claim's lookup;
for three it returns the value the claim's lookup reaches, when it reaches
one. -/
theorem VariableValue_looks_up_middle_ids_in_first_instance :
    VariableValue.reached
        ⟨"", [⟨Class.mk "X" [] none,
            [("b", some (.ClassInstance 1)), ("c", some (.ClassInstance 3))]⟩,
          ⟨Class.mk "X" [] none, [("c", some (.ClassInstance 2))]⟩,
          ⟨Class.mk "X" [] none, [("d", some (.Number 1))]⟩,
          ⟨Class.mk "X" [] none, [("d", some (.Number 2))]⟩]⟩
        (some (.ClassInstance 0)) ["b", "c", "d"] = some (some (.Number 1)) ∧
    VariableValue.Execute ["a", "b", "c", "d"] [("a", some (.ClassInstance 0))]
        ⟨"", [⟨Class.mk "X" [] none,
            [("b", some (.ClassInstance 1)), ("c", some (.ClassInstance 3))]⟩,
          ⟨Class.mk "X" [] none, [("c", some (.ClassInstance 2))]⟩,
          ⟨Class.mk "X" [] none, [("d", some (.Number 1))]⟩,
          ⟨Class.mk "X" [] none, [("d", some (.Number 2))]⟩]⟩ =
      .ok (some (.Number 2)) ∧
    VariableValue.reached
        ⟨"", [⟨Class.mk "X" [] none, [("b", some (.ClassInstance 1))]⟩,
          ⟨Class.mk "X" [] none, [("c", some (.ClassInstance 2))]⟩,
          ⟨Class.mk "X" [] none, [("d", some (.Number 1))]⟩]⟩
        (some (.ClassInstance 0)) ["b", "c", "d"] = some (some (.Number 1)) ∧
    VariableValue.Execute ["a", "b", "c", "d"] [("a", some (.ClassInstance 0))]
        ⟨"", [⟨Class.mk "X" [] none, [("b", some (.ClassInstance 1))]⟩,
          ⟨Class.mk "X" [] none, [("c", some (.ClassInstance 2))]⟩,
          ⟨Class.mk "X" [] none, [("d", some (.Number 1))]⟩]⟩ =
      .error (.runtime_error "Accessing a non-existent field") ∧
    VariableValue.reached ⟨"", [⟨Class.mk "X" [] none, [("b", some (.Number 5))]⟩]⟩
        (some (.ClassInstance 0)) ["b", "c"] = none ∧
    VariableValue.Execute ["a", "b", "c"] [("a", some (.ClassInstance 0))]
        ⟨"", [⟨Class.mk "X" [] none, [("b", some (.Number 5))]⟩]⟩ = .error .undefined ∧
    (∀ (closure : Closure) (context : Context) (id_0 : String),
      VariableValue.Execute [id_0] closure context =
        match Map.find closure id_0 with
        | some value => .ok value
        | none => .error (.runtime_error "Unknown name")) ∧
    (∀ (closure : Closure) (context : Context) (id_0 id_1 : String),
      (VariableValue.Execute [id_0, id_1] closure context).toOption =
        (Map.find closure id_0).bind
          (fun obj => VariableValue.reached context obj [id_1])) ∧
    (∀ (closure : Closure) (context : Context) (id_0 id_1 id_2 : String) (value : ObjectHolder),
      (Map.find closure id_0).bind
          (fun obj => VariableValue.reached context obj [id_1, id_2]) = some value →
      VariableValue.Execute [id_0, id_1, id_2] closure context = .ok value) := by
  refine ⟨rfl, rfl, rfl, rfl, rfl, rfl, fun _ _ _ => rfl, ?_, ?_⟩
  · intro closure context id_0 id_1
    cases h0 : Map.find closure id_0 with
    | none => simp [VariableValue.Execute, h0, Except.toOption]
    | some obj =>
      rcases obj with _ | (x | x | x | x | x) <;>
        try simp [VariableValue.Execute, h0, Except.toOption, VariableValue.reached]
      cases h1 : context.heap[x]? with
      | none => simp [VariableValue.loop, h1, Except.toOption]
      | some inst =>
        cases h2 : Map.find inst.fields_ id_1 <;>
          simp [VariableValue.loop, h1, h2, Except.toOption, VariableValue.reached]
  · intro closure context id_0 id_1 id_2 value h
    cases h0 : Map.find closure id_0 with
    | none => simp [h0] at h
    | some obj =>
      rw [h0] at h
      rcases obj with _ | (x | x | x | x | x)
      · simp [VariableValue.reached] at h
      · simp [VariableValue.reached] at h
      · simp [VariableValue.reached] at h
      · simp [VariableValue.reached] at h
      · simp [VariableValue.reached] at h
      · cases h1 : context.heap[x]? with
        | none => simp [VariableValue.reached, h1] at h
        | some inst =>
          cases h2 : Map.find inst.fields_ id_1 with
          | none => simp [VariableValue.reached, h1, h2] at h
          | some mid =>
            rcases mid with _ | (y | y | y | y | y)
            · simp [VariableValue.reached, h1, h2] at h
            · simp [VariableValue.reached, h1, h2] at h
            · simp [VariableValue.reached, h1, h2] at h
            · simp [VariableValue.reached, h1, h2] at h
            · simp [VariableValue.reached, h1, h2] at h
            · cases h3 : context.heap[y]? with
              | none => simp [VariableValue.reached, h1, h2, h3] at h
              | some last =>
                cases h4 : Map.find last.fields_ id_2 with
                | none => simp [VariableValue.reached, h1, h2, h3, h4] at h
                | some v =>
                  simp [VariableValue.reached, h1, h2, h3, h4] at h
                  simp [VariableValue.Execute, VariableValue.loop, h0, h1, h2, h3, h4, h]

/-- Claim C18 (the code departs from the claim).  For a variable `A` bound to
the class `A`, `str(A)` returns `String("None")`, while `print A` writes
`Class A`: `Stringify::Execute` has no case for a `Class` and treats it as it
treats a null value.  In general, on an argument that evaluates to a `Class`
it returns `"None"` where `Print` writes `Class` and the name; on an argument
that evaluates to anything else it returns the `String` of the text that
`Print` writes for the value (`Print.text`: `"None"` for a null value), or
raises what printing raises. -/
theorem Stringify_of_Class_is_None :
    Exec 3 (.Stringify (.VariableValue ["A"])) [("A", some (.Class (Class.mk "A" [] none)))]
        ⟨"", []⟩ =
      returns (some (.String "None")) [("A", some (.Class (Class.mk "A" [] none)))] ⟨"", []⟩ ∧
    Exec 3 (.Print [.VariableValue ["A"]]) [("A", some (.Class (Class.mk "A" [] none)))]
        ⟨"", []⟩ =
      returns none [("A", some (.Class (Class.mk "A" [] none)))] ⟨"Class A\n", []⟩ ∧
    (∀ (exec : Executor) (fuel : Nat) (arg : Statement) (closure c : Closure)
        (context x : Context) (cls : runtime.Class),
      exec arg closure context = returns (some (.Class cls)) c x →
      Execute exec fuel (.Stringify arg) closure context = returns (some (.String "None")) c x ∧
      Print.text exec (fuel + 1) (some (.Class cls)) x = (.ok ("Class " ++ cls.GetName), x)) ∧
    (∀ (exec : Executor) (fuel : Nat) (arg : Statement) (closure c : Closure)
        (context x : Context) (v : ObjectHolder),
      exec arg closure context = returns v c x → (∀ cls, v ≠ some (.Class cls)) →
      Execute exec fuel (.Stringify arg) closure context =
        match Print.text exec fuel v x with
        | (.ok text, x') => returns (some (.String text)) c x'
        | (.error e, x') => raises e c x') := by
  refine ⟨rfl, rfl, ?_, ?_⟩
  · intro exec fuel arg closure c context x cls h
    refine ⟨?_, rfl⟩
    simp only [Execute, h, returns]
  · intro exec fuel arg closure c context x v h hv
    rcases v with _ | (a | a | a | a | a)
    · simp only [Execute, h, returns, Print.text]
    · simp only [Execute, h, returns, Print.text]
    · simp only [Execute, h, returns, Print.text]
    · simp only [Execute, h, returns, Print.text]
    · exact absurd rfl (hv a)
    · simp only [Execute, h, returns, Print.text]

/-- Claim C20 (amended).  Let the operands of an `Add` node evaluate, left
first, to `vl` and `vr`.  When they are the numbers `a` and `b` and the type
of a `Number` can hold `a + b`, `Add::Execute` returns `Number(a + b)`; when
it cannot, the addition overflows, which is undefined behaviour.  It returns
`String(s ++ t)` when they are the strings `s` and `t`; when `vl` is an
instance whose class defines `__add__` with one parameter it returns what
`vl.__add__(vr)` returns, or raises what that call raises; in every other
case it raises the runtime error "Add operands are illegal".  An `Add` node
with a null operand raises the runtime error "Null operands are not
supported". -/
theorem Add_by_kind_of_operands (exec : Executor) (fuel : Nat) (lhs rhs : Statement)
    (closure c1 c2 : Closure) (context x1 x2 : Context) (vl vr : ObjectHolder)
    (hl : exec lhs closure context = returns vl c1 x1)
    (hr : exec rhs c1 x1 = returns vr c2 x2) :
    (∀ a b : Int, vl = some (.Number a) → vr = some (.Number b) →
      (Number.min ≤ a + b ∧ a + b ≤ Number.max →
        Execute exec fuel (.Add (some lhs) (some rhs)) closure context =
          returns (some (.Number (a + b))) c2 x2) ∧
      (¬ (Number.min ≤ a + b ∧ a + b ≤ Number.max) →
        Execute exec fuel (.Add (some lhs) (some rhs)) closure context =
          raises .undefined c2 x2)) ∧
    (∀ s t : String, vl = some (.String s) → vr = some (.String t) →
      Execute exec fuel (.Add (some lhs) (some rhs)) closure context =
        returns (some (.String (s ++ t))) c2 x2) ∧
    (∀ self inst, vl = some (.ClassInstance self) → x2.heap.get? self = some inst →
      inst.HasMethod "__add__" 1 = true →
      Execute exec fuel (.Add (some lhs) (some rhs)) closure context =
        match Call exec self "__add__" [vr] x2 with
        | (.ok value, x) => returns value c2 x
        | (.error e, x) => raises e c2 x) ∧
    ((∀ a b, ¬ (vl = some (.Number a) ∧ vr = some (.Number b))) →
      (∀ s t, ¬ (vl = some (.String s) ∧ vr = some (.String t))) →
      (∀ self inst, vl = some (.ClassInstance self) → x2.heap.get? self = some inst →
        inst.HasMethod "__add__" 1 = false) →
      Execute exec fuel (.Add (some lhs) (some rhs)) closure context =
        raises (.runtime_error "Add operands are illegal") c2 x2) ∧
    (∀ l r : Option Statement, l = none ∨ r = none →
      Execute exec fuel (.Add l r) closure context =
        raises (.runtime_error "Null operands are not supported") closure context) := by
  refine ⟨?_, ?_, ?_, ?_, ?_⟩
  · rintro a b rfl rfl
    constructor
    · intro h
      simp only [Execute, hl, hr, returns, Number.result_of_in_range _ h]
    · intro h
      simp only [Execute, hl, hr, returns, Number.result_of_overflow _ h]
  · rintro s t rfl rfl
    simp only [Execute, hl, hr, returns]
  · rintro self inst rfl hinst hhas
    have hh := holderHasMethod_eq_some x2 self inst "__add__" 1 hinst hhas
    cases vr <;> simp only [Execute, hl, hr, returns, hh]
  · intro hn hs hinst
    have hh := holderHasMethod_eq_none x2 vl "__add__" 1 hinst
    rcases vl with _ | (x | x | x | x | x) <;> rcases vr with _ | (y | y | y | y | y) <;>
      first
      | (simp only [Execute, hl, hr, returns, hh]; done)
      | (simp at hn; done)
      | simp at hs
  · rintro l r (rfl | rfl)
    · cases r <;> rfl
    · cases l <;> rfl

/-- Claim C20 on two inputs: `1 + 2` is `3`, and `1 + "2"` raises. -/
theorem Add_by_kind_of_operands_witness :
    Exec 2 (.Add (some (.ValueStatement (.Number 1))) (some (.ValueStatement (.Number 2)))) []
        ⟨"", []⟩ = returns (some (.Number 3)) [] ⟨"", []⟩ ∧
    Exec 2 (.Add (some (.ValueStatement (.Number 1))) (some (.ValueStatement (.String "2")))) []
        ⟨"", []⟩ = raises (.runtime_error "Add operands are illegal") [] ⟨"", []⟩ :=
  ⟨((Add_by_kind_of_operands (Exec 1) 1 (.ValueStatement (.Number 1))
      (.ValueStatement (.Number 2)) [] [] [] ⟨"", []⟩ ⟨"", []⟩ ⟨"", []⟩ (some (.Number 1))
      (some (.Number 2)) rfl rfl).1 1 2 rfl rfl).1 (by decide),
    (Add_by_kind_of_operands (Exec 1) 1 (.ValueStatement (.Number 1))
      (.ValueStatement (.String "2")) [] [] [] ⟨"", []⟩ ⟨"", []⟩ ⟨"", []⟩ (some (.Number 1))
      (some (.String "2")) rfl rfl).2.2.2.1 (by simp) (by simp) (by simp)⟩

/-- Claim C20, the inputs on which the claim as written fails: the sum of the
greatest `Number`, 9223372036854775807, and 1 is no value of the type, and
the node does not return a `Number`: the addition overflows.  The same
happens in a program that the lexer can read: with `x = 2147483647`, the
value `y = x * x * 2` is 9223372028264841218, and `y + y` overflows. -/
theorem Add_overflows_past_greatest_Number :
    Exec 2 (.Add (some (.ValueStatement (.Number 9223372036854775807)))
        (some (.ValueStatement (.Number 1)))) [] ⟨"", []⟩ = raises .undefined [] ⟨"", []⟩ ∧
    Exec 3 (.Mult (some (.Mult (some (.ValueStatement (.Number 2147483647)))
          (some (.ValueStatement (.Number 2147483647)))))
        (some (.ValueStatement (.Number 2)))) [] ⟨"", []⟩ =
      returns (some (.Number 9223372028264841218)) [] ⟨"", []⟩ ∧
    Exec 4 (.Add
        (some (.Mult (some (.Mult (some (.ValueStatement (.Number 2147483647)))
          (some (.ValueStatement (.Number 2147483647)))))
          (some (.ValueStatement (.Number 2)))))
        (some (.Mult (some (.Mult (some (.ValueStatement (.Number 2147483647)))
          (some (.ValueStatement (.Number 2147483647)))))
          (some (.ValueStatement (.Number 2)))))) [] ⟨"", []⟩ = raises .undefined [] ⟨"", []⟩ :=
  ⟨rfl, rfl, rfl⟩


/-- Claim C21 (amended).  Let the operands of a `Div` node evaluate, left
first, to `vl` and `vr`.  For two numbers `a` and `b` with `b ≠ 0` whose
quotient the type of a `Number` can hold, the node returns `Number(a / b)`
with the quotient truncated toward zero (`Int.tdiv`: its magnitude is
`|a| / |b|` rounded down and its sign is that of `a * b`); for a value `a` of
the type the quotient is one too unless `a` is the least value and `b` is
`-1`, where the division overflows (undefined behaviour).  For a number and
the number 0 it raises the runtime error "Division by zero", and the closure
and the context are those the evaluation of the operands left: `Div` itself
writes nothing.  When an operand is not a number it raises "Division operands
are illegal".  So it raises a runtime error if and only if an operand is not
a number or the right operand is the number 0.  `Sub` and `Mult` return
`Number(a - b)` and `Number(a * b)` for two numbers whose difference, or
product, the type can hold, overflow otherwise, and raise a runtime error
when an operand is not a number. -/
theorem Div_Sub_Mult_by_kind_of_operands (exec : Executor) (fuel : Nat) (lhs rhs : Statement)
    (closure c1 c2 : Closure) (context x1 x2 : Context) (vl vr : ObjectHolder)
    (hl : exec lhs closure context = returns vl c1 x1)
    (hr : exec rhs c1 x1 = returns vr c2 x2) :
    (∀ a b : Int, vl = some (.Number a) → vr = some (.Number b) → b ≠ 0 →
      (Number.min ≤ Int.tdiv a b ∧ Int.tdiv a b ≤ Number.max →
        Execute exec fuel (.Div (some lhs) (some rhs)) closure context =
          returns (some (.Number (Int.tdiv a b))) c2 x2) ∧
      (¬ (Number.min ≤ Int.tdiv a b ∧ Int.tdiv a b ≤ Number.max) →
        Execute exec fuel (.Div (some lhs) (some rhs)) closure context =
          raises .undefined c2 x2) ∧
      (Number.min ≤ a ∧ a ≤ Number.max →
        ((Number.min ≤ Int.tdiv a b ∧ Int.tdiv a b ≤ Number.max) ↔
          ¬ (a = Number.min ∧ b = -1))) ∧
      (Int.tdiv a b).natAbs = a.natAbs / b.natAbs ∧ 0 ≤ Int.tdiv a b * (a * b)) ∧
    (∀ a : Int, vl = some (.Number a) → vr = some (.Number 0) →
      Execute exec fuel (.Div (some lhs) (some rhs)) closure context =
        raises (.runtime_error "Division by zero") c2 x2) ∧
    ((∀ a, vl ≠ some (.Number a)) ∨ (∀ b, vr ≠ some (.Number b)) →
      Execute exec fuel (.Div (some lhs) (some rhs)) closure context =
        raises (.runtime_error "Division operands are illegal") c2 x2) ∧
    ((∃ what, Execute exec fuel (.Div (some lhs) (some rhs)) closure context =
        raises (.runtime_error what) c2 x2) ↔
      ((∀ a, vl ≠ some (.Number a)) ∨ (∀ b, vr ≠ some (.Number b)) ∨
        vr = some (.Number 0))) ∧
    (∀ a b : Int, vl = some (.Number a) → vr = some (.Number b) →
      (Number.min ≤ a - b ∧ a - b ≤ Number.max →
        Execute exec fuel (.Sub (some lhs) (some rhs)) closure context =
          returns (some (.Number (a - b))) c2 x2) ∧
      (¬ (Number.min ≤ a - b ∧ a - b ≤ Number.max) →
        Execute exec fuel (.Sub (some lhs) (some rhs)) closure context =
          raises .undefined c2 x2) ∧
      (Number.min ≤ a * b ∧ a * b ≤ Number.max →
        Execute exec fuel (.Mult (some lhs) (some rhs)) closure context =
          returns (some (.Number (a * b))) c2 x2) ∧
      (¬ (Number.min ≤ a * b ∧ a * b ≤ Number.max) →
        Execute exec fuel (.Mult (some lhs) (some rhs)) closure context =
          raises .undefined c2 x2)) ∧
    ((∀ a, vl ≠ some (.Number a)) ∨ (∀ b, vr ≠ some (.Number b)) →
      Execute exec fuel (.Sub (some lhs) (some rhs)) closure context =
        raises (.runtime_error "Substrict operands are illegal") c2 x2 ∧
      Execute exec fuel (.Mult (some lhs) (some rhs)) closure context =
        raises (.runtime_error "Multiply operands are illegal") c2 x2) := by
  refine ⟨?_, ?_, ?_, ?_, ?_, ?_⟩
  · rintro a b rfl rfl hb
    refine ⟨fun h => ?_, fun h => ?_, fun ha => ?_, Int.natAbs_tdiv a b, tdiv_mul_nonneg a b⟩
    · simp only [Execute]
      rw [arithmetic_of_numbers exec lhs rhs _ _ closure c1 c2 context x1 x2 a b hl hr]
      simp only [hb, if_false, Number.result_of_in_range _ h]
    · simp only [Execute]
      rw [arithmetic_of_numbers exec lhs rhs _ _ closure c1 c2 context x1 x2 a b hl hr]
      simp only [hb, if_false, Number.result_of_overflow _ h]
    · constructor
      · rintro h ⟨rfl, rfl⟩
        exact tdiv_min_overflows h
      · exact tdiv_in_range a b ha hb
  · rintro a rfl rfl
    simp only [Execute]
    rw [arithmetic_of_numbers exec lhs rhs _ _ closure c1 c2 context x1 x2 a 0 hl hr]
    simp only [if_true]
  · intro h
    simp only [Execute]
    exact arithmetic_of_illegal exec lhs rhs _ _ closure c1 c2 context x1 x2 vl vr hl hr h
  · constructor
    · rintro ⟨what, hwhat⟩
      by_cases h1 : ∀ a, vl ≠ some (.Number a)
      · exact Or.inl h1
      · by_cases h2 : ∀ b, vr ≠ some (.Number b)
        · exact Or.inr (Or.inl h2)
        · refine Or.inr (Or.inr ?_)
          simp only [ne_eq, not_forall, not_not] at h1 h2
          obtain ⟨a, rfl⟩ := h1
          obtain ⟨b, rfl⟩ := h2
          by_cases hb : b = 0
          · rw [hb]
          · simp only [Execute] at hwhat
            rw [arithmetic_of_numbers exec lhs rhs _ _ closure c1 c2 context x1 x2 a b hl hr]
              at hwhat
            by_cases hq : Number.min ≤ Int.tdiv a b ∧ Int.tdiv a b ≤ Number.max
            · simp [hb, Number.result_of_in_range _ hq, returns, raises] at hwhat
            · simp [hb, Number.result_of_overflow _ hq, raises] at hwhat
    · rintro (h | h | h)
      · exact ⟨_, by
          simp only [Execute]
          exact arithmetic_of_illegal exec lhs rhs _ _ closure c1 c2 context x1 x2 vl vr hl hr
            (Or.inl h)⟩
      · exact ⟨_, by
          simp only [Execute]
          exact arithmetic_of_illegal exec lhs rhs _ _ closure c1 c2 context x1 x2 vl vr hl hr
            (Or.inr h)⟩
      · subst h
        by_cases h1 : ∀ a, vl ≠ some (.Number a)
        · exact ⟨_, by
            simp only [Execute]
            exact arithmetic_of_illegal exec lhs rhs _ _ closure c1 c2 context x1 x2 vl _ hl hr
              (Or.inl h1)⟩
        · simp only [ne_eq, not_forall, not_not] at h1
          obtain ⟨a, rfl⟩ := h1
          refine ⟨"Division by zero", ?_⟩
          simp only [Execute]
          rw [arithmetic_of_numbers exec lhs rhs _ _ closure c1 c2 context x1 x2 a 0 hl hr]
          simp only [if_true]
  · rintro a b rfl rfl
    refine ⟨fun h => ?_, fun h => ?_, fun h => ?_, fun h => ?_⟩
    · simp only [Execute]
      rw [arithmetic_of_numbers exec lhs rhs _ _ closure c1 c2 context x1 x2 a b hl hr]
      simp only [Number.result_of_in_range _ h]
    · simp only [Execute]
      rw [arithmetic_of_numbers exec lhs rhs _ _ closure c1 c2 context x1 x2 a b hl hr]
      simp only [Number.result_of_overflow _ h]
    · simp only [Execute]
      rw [arithmetic_of_numbers exec lhs rhs _ _ closure c1 c2 context x1 x2 a b hl hr]
      simp only [Number.result_of_in_range _ h]
    · simp only [Execute]
      rw [arithmetic_of_numbers exec lhs rhs _ _ closure c1 c2 context x1 x2 a b hl hr]
      simp only [Number.result_of_overflow _ h]
  · intro h
    constructor
    · simp only [Execute]
      exact arithmetic_of_illegal exec lhs rhs _ _ closure c1 c2 context x1 x2 vl vr hl hr h
    · simp only [Execute]
      exact arithmetic_of_illegal exec lhs rhs _ _ closure c1 c2 context x1 x2 vl vr hl hr h

/-- Claim C21, the scenario: `1 / 0` raises "Division by zero" and the output
stays empty; `-7 / 2` is `-3`. -/
theorem Div_Sub_Mult_by_kind_of_operands_witness :
    Exec 2 (.Div (some (.ValueStatement (.Number 1))) (some (.ValueStatement (.Number 0)))) []
        ⟨"", []⟩ = raises (.runtime_error "Division by zero") [] ⟨"", []⟩ ∧
    Exec 2 (.Div (some (.ValueStatement (.Number (-7)))) (some (.ValueStatement (.Number 2)))) []
        ⟨"", []⟩ = returns (some (.Number (-3))) [] ⟨"", []⟩ :=
  ⟨(Div_Sub_Mult_by_kind_of_operands (Exec 1) 1 (.ValueStatement (.Number 1))
      (.ValueStatement (.Number 0)) [] [] [] ⟨"", []⟩ ⟨"", []⟩ ⟨"", []⟩ (some (.Number 1))
      (some (.Number 0)) rfl rfl).2.1 1 rfl rfl,
    ((Div_Sub_Mult_by_kind_of_operands (Exec 1) 1 (.ValueStatement (.Number (-7)))
      (.ValueStatement (.Number 2)) [] [] [] ⟨"", []⟩ ⟨"", []⟩ ⟨"", []⟩ (some (.Number (-7)))
      (some (.Number 2)) rfl rfl).1 (-7) 2 rfl rfl (by decide)).1 (by decide)⟩

/-- Claim C21, the inputs on which the claim as written fails: for the least
`Number`, -9223372036854775808, and `-1` the right operand is not 0, yet
`Div` returns no `Number`: the quotient is no value of the type and the
division overflows.  The least `Number` minus 1 overflows in `Sub`, and
`2147483647 * 2147483647 * 4` overflows in `Mult`. -/
theorem Div_overflows_on_least_Number_by_minus_one :
    Exec 2 (.Div (some (.ValueStatement (.Number (-9223372036854775808))))
        (some (.ValueStatement (.Number (-1))))) [] ⟨"", []⟩ = raises .undefined [] ⟨"", []⟩ ∧
    Exec 2 (.Sub (some (.ValueStatement (.Number (-9223372036854775808))))
        (some (.ValueStatement (.Number 1)))) [] ⟨"", []⟩ = raises .undefined [] ⟨"", []⟩ ∧
    Exec 3 (.Mult (some (.Mult (some (.ValueStatement (.Number 2147483647)))
          (some (.ValueStatement (.Number 2147483647)))))
        (some (.ValueStatement (.Number 4)))) [] ⟨"", []⟩ = raises .undefined [] ⟨"", []⟩ :=
  ⟨rfl, rfl, rfl⟩

/-- Claim C22 (amended).  For operands that evaluate to the numbers `a` and
`b` whose sum and difference the type of a `Number` can hold, with `Add` and
`Sub` evaluated by the nodes:
`Add(a,b) + Sub(a,b) = 2·Add(a,b) - 2·b`.  With `Sub(b,a)` in the place of
`Sub(a,b)`, as the claim is written, the equation holds exactly when
`a = b`. -/
theorem Add_plus_Sub_of_same_operands (exec : Executor) (fuel : Nat) (ea eb : Statement)
    (closure : Closure) (context : Context) (a b : Int)
    (ha : ∀ c x, exec ea c x = returns (some (.Number a)) c x)
    (hb : ∀ c x, exec eb c x = returns (some (.Number b)) c x)
    (hsum : Number.min ≤ a + b ∧ a + b ≤ Number.max)
    (hdiff : Number.min ≤ a - b ∧ a - b ≤ Number.max) :
    Execute exec fuel (.Add (some ea) (some eb)) closure context =
      returns (some (.Number (a + b))) closure context ∧
    Execute exec fuel (.Sub (some ea) (some eb)) closure context =
      returns (some (.Number (a - b))) closure context ∧
    (a + b) + (a - b) = 2 * (a + b) - 2 * b ∧
    (Number.min ≤ b - a ∧ b - a ≤ Number.max →
      Execute exec fuel (.Sub (some eb) (some ea)) closure context =
        returns (some (.Number (b - a))) closure context) ∧
    ((a + b) + (b - a) = 2 * (a + b) - 2 * b ↔ a = b) := by
  refine ⟨?_, ?_, by omega, fun h => ?_, by omega⟩
  · simp only [Execute, ha, hb, returns, Number.result_of_in_range _ hsum]
  · simp only [Execute]
    rw [arithmetic_of_numbers exec ea eb _ _ closure closure closure context context context a b
      (ha _ _) (hb _ _)]
    simp only [Number.result_of_in_range _ hdiff]
  · simp only [Execute]
    rw [arithmetic_of_numbers exec eb ea _ _ closure closure closure context context context b a
      (hb _ _) (ha _ _)]
    simp only [Number.result_of_in_range _ h]

/-- Claim C22, an instance of the amended statement: for `a = 1`, `b = 2` the
nodes give `3` and `-1`, and `3 + (-1) = 2·3 - 2·2`. -/
theorem Add_plus_Sub_of_same_operands_witness :
    Exec 2 (.Add (some (.ValueStatement (.Number 1))) (some (.ValueStatement (.Number 2)))) []
        ⟨"", []⟩ = returns (some (.Number 3)) [] ⟨"", []⟩ ∧
    Exec 2 (.Sub (some (.ValueStatement (.Number 1))) (some (.ValueStatement (.Number 2)))) []
        ⟨"", []⟩ = returns (some (.Number (-1))) [] ⟨"", []⟩ ∧
    ((3 : Int) + (-1) = 2 * 3 - 2 * 2) :=
  ⟨(Add_plus_Sub_of_same_operands (Exec 1) 1 (.ValueStatement (.Number 1))
      (.ValueStatement (.Number 2)) [] ⟨"", []⟩ 1 2 (fun _ _ => rfl) (fun _ _ => rfl)
      (by decide) (by decide)).1,
    (Add_plus_Sub_of_same_operands (Exec 1) 1 (.ValueStatement (.Number 1))
      (.ValueStatement (.Number 2)) [] ⟨"", []⟩ 1 2 (fun _ _ => rfl) (fun _ _ => rfl)
      (by decide) (by decide)).2.1,
    by decide⟩

/-- Claim C22, the inputs on which the claim as written fails: for `a = 1`,
`b = 2` the nodes give `Add(1,2) = 3` and `Sub(2,1) = 1`; the left side is
`4`, the right side `2·3 - 2·2 = 2`.  And for `a = b = 9223372036854775807`
the node `Add` returns no number at all: the sum overflows. -/
theorem Add_plus_Sub_swapped_differs :
    Exec 2 (.Add (some (.ValueStatement (.Number 1))) (some (.ValueStatement (.Number 2)))) []
        ⟨"", []⟩ = returns (some (.Number 3)) [] ⟨"", []⟩ ∧
    Exec 2 (.Sub (some (.ValueStatement (.Number 2))) (some (.ValueStatement (.Number 1)))) []
        ⟨"", []⟩ = returns (some (.Number 1)) [] ⟨"", []⟩ ∧
    (3 : Int) + 1 = 4 ∧ (2 : Int) * 3 - 2 * 2 = 2 ∧ (3 : Int) + 1 ≠ 2 * 3 - 2 * 2 ∧
    Exec 2 (.Add (some (.ValueStatement (.Number 9223372036854775807)))
        (some (.ValueStatement (.Number 9223372036854775807)))) [] ⟨"", []⟩ =
      raises .undefined [] ⟨"", []⟩ :=
  ⟨rfl, rfl, by decide, by decide, by decide, rfl⟩

/-- Claim C25.  On two null holders `Equal` returns true, `Less` raises the
runtime error "Cannot compare objects for less", and `Greater`, `LessOrEqual`
and `GreaterOrEqual` raise the same error.  For all operands, whenever `Less`
raises, each of `Greater`, `LessOrEqual` and `GreaterOrEqual` raises the
same, with the same context. -/
theorem ordering_comparisons_raise_when_Less_raises (exec : Executor) (context : Context) :
    Equal exec none none context = (.ok true, context) ∧
    Less exec none none context =
      (.error (.runtime_error "Cannot compare objects for less"), context) ∧
    Greater exec none none context =
      (.error (.runtime_error "Cannot compare objects for less"), context) ∧
    LessOrEqual exec none none context =
      (.error (.runtime_error "Cannot compare objects for less"), context) ∧
    GreaterOrEqual exec none none context =
      (.error (.runtime_error "Cannot compare objects for less"), context) ∧
    (∀ (lhs rhs : ObjectHolder) (e : Abrupt) (x : Context),
      Less exec lhs rhs context = (.error e, x) →
      Greater exec lhs rhs context = (.error e, x) ∧
      LessOrEqual exec lhs rhs context = (.error e, x) ∧
      GreaterOrEqual exec lhs rhs context = (.error e, x)) := by
  refine ⟨rfl, rfl, rfl, rfl, rfl, ?_⟩
  intro lhs rhs e x h
  simp only [Greater, LessOrEqual, GreaterOrEqual, h, and_self]

end ast

end Mython
